import Mathlib

/-!
# mp-dh: two-party additive key-split Diffie-Hellman on P-256

A shallow embedding of `mp-dh.go` (verbs `generate`, `send`, `recover` and the helper
functions) together with the parts of the Go standard library the program calls:
`math/big` (`Bytes`, `SetBytes`), `encoding/hex`, `fmt` (`%x`), `crypto/rand` (`Int`),
`crypto/elliptic` (`P256`, `GenerateKey`), `encoding/pem` and `crypto/x509`. The library is
not part of the repository; its functions are embedded with the behaviour they have in
Go 1.19 and later, where the curve methods panic on a point that is not on the curve,
`(0, 0)` stands for the point at infinity, and a key that is not on its curve is refused by
`x509.MarshalPKIXPublicKey`.

Conventions of the embedding.
* A `*big.Int` is a natural number (the program never produces a negative one), a byte is a
  natural number below 256, a `[]byte` or a `string` is a list of bytes.
* The file system is an association list from file names to file contents, the first entry
  of a name being its content. Every write of a run is given a `WriteEnv`, which tells what
  the operating system does with it: the write is carried out, the file cannot be opened
  (nothing changes), or the file is opened, which creates or truncates it, and the write
  breaks off, which leaves the file with what had reached it.
* The random source is the list of the 32-byte blocks it will deliver, each given as the
  big-endian integer of the block; an exhausted list is a failing reader.
* `os.Exit(1)` is `Exit.exit1`, a Go panic is `Exit.panic`, a normal return is `Exit.ok`.
-/

namespace MpDh

deriving instance DecidableEq for Except

/-! ## math/big -/

namespace big

/-- Loop of `Bytes`: peel off the low byte of `n` until nothing is left. -/
def bytesAux : Nat → Nat → List Nat → List Nat
  | 0, _, acc => acc
  | fuel + 1, n, acc => if n = 0 then acc else bytesAux fuel (n / 256) (n % 256 :: acc)

/-- The method `(*big.Int).Bytes`: the big-endian bytes of `n` without leading zero bytes
(the empty slice for `0`). -/
def Bytes (n : Nat) : List Nat := bytesAux n n []

/-- The method `(*big.Int).SetBytes`: the integer of a big-endian byte slice. -/
def SetBytes (buf : List Nat) : Nat := buf.foldl (fun acc b => acc * 256 + b) 0

end big

/-! ## encoding/hex and fmt -/

namespace hex

/-- The table `hextable = "0123456789abcdef"` as bytes. -/
def hextable : List Nat := [48, 49, 50, 51, 52, 53, 54, 55, 56, 57, 97, 98, 99, 100, 101, 102]

/-- The function `hex.EncodeToString`: two table characters per byte, high nibble first
(`v >> 4` is `v / 16` and `v & 0x0f` is `v % 16`). -/
def EncodeToString : List Nat → List Nat
  | [] => []
  | v :: rest => hextable.getD (v / 16) 0 :: hextable.getD (v % 16) 0 :: EncodeToString rest

/-- The table `reverseHexTable` of `encoding/hex`: the value of a hex digit of either case,
`none` for the entries `0xff` of any other byte. -/
def fromHexChar (c : Nat) : Option Nat :=
  if 48 ≤ c ∧ c ≤ 57 then some (c - 48)
  else if 97 ≤ c ∧ c ≤ 102 then some (c - 97 + 10)
  else if 65 ≤ c ∧ c ≤ 70 then some (c - 65 + 10)
  else none

/-- The function `hex.DecodeString`: pairs of hex digits to bytes; the first invalid byte is
reported (`InvalidByteError`), otherwise an odd length (`ErrLength`). -/
def DecodeString : List Nat → Except String (List Nat)
  | [] => .ok []
  | [p] =>
    match fromHexChar p with
    | none => .error "encoding/hex: invalid byte"
    | some _ => .error "encoding/hex: odd length hex string"
  | p :: q :: rest =>
    match fromHexChar p, fromHexChar q with
    | some a, some b =>
      match DecodeString rest with
      | .ok bs => .ok ((a * 16 + b) :: bs)
      | .error e => .error e
    | _, _ => .error "encoding/hex: invalid byte"

end hex

namespace fmt

/-- The digits `ldigits = "0123456789abcdefx"` of package `fmt` as bytes. -/
def ldigits : List Nat :=
  [48, 49, 50, 51, 52, 53, 54, 55, 56, 57, 97, 98, 99, 100, 101, 102, 120]

/-- The verb `%x` applied to a byte slice (`fmtSbx` without flags): two digits per byte. -/
def sbx : List Nat → List Nat
  | [] => []
  | c :: rest => ldigits.getD (c / 16) 0 :: ldigits.getD (c % 16) 0 :: sbx rest

/-- A byte string as text, for the lines the program prints. -/
def text (bs : List Nat) : String := String.mk (bs.map Char.ofNat)

end fmt

/-! ## crypto/elliptic -/

namespace elliptic

/-- The struct `elliptic.CurveParams` of a short Weierstrass curve `y² = x³ - 3x + b`. -/
structure CurveParams where
  P : Nat
  N : Nat
  B : Nat
  Gx : Nat
  Gy : Nat
  BitSize : Nat
  Name : String
  deriving DecidableEq, Repr

/-- The method `IsOnCurve` of the standard curves: false for `(0, 0)`, the conventional point
at infinity, and for coordinates outside `[0, P)`; otherwise the curve equation. -/
def CurveParams.IsOnCurve (c : CurveParams) (x y : Nat) : Bool :=
  !(x == 0 && y == 0) && decide (x < c.P) && decide (y < c.P) &&
    (y * y % c.P == (x * x * x + (c.P - 3) * x + c.B) % c.P)

/-- The methods of the interface `elliptic.Curve` that the program calls. The result `none`
of `Add` and `ScalarMult` is the panic of the library on a point that is not on the curve. -/
structure Curve where
  Params : CurveParams
  Add : Nat → Nat → Nat → Nat → Option (Nat × Nat)
  ScalarMult : Nat → Nat → List Nat → Option (Nat × Nat)
  ScalarBaseMult : List Nat → Nat × Nat

end elliptic

/-- Modelled from the spec: the fixed NIST prime curve of 256-bit order, `elliptic.P256()` of
the Go standard library, whose code is not part of the repository. The constants are those of
FIPS 186; the operations are the chord-and-tangent group law on affine coordinates, with
`(0, 0)` standing for the point at infinity as in the library. -/
def P256.P : Nat := 0xffffffff00000001000000000000000000000000ffffffffffffffffffffffff

namespace P256

/-- The order of the base point. -/
def N : Nat := 0xffffffff00000000ffffffffffffffffbce6faada7179e84f3b9cac2fc632551

/-- The constant of the curve equation. -/
def B : Nat := 0x5ac635d8aa3a93e7b3ebbd55769886bc651d06b0cc53b0f63bce3c3e27d2604b

/-- The x-coordinate of the base point. -/
def Gx : Nat := 0x6b17d1f2e12c4247f8bce6e563a440f277037d812deb33a0f4a13945d898c296

/-- The y-coordinate of the base point. -/
def Gy : Nat := 0x4fe342e2fe1a7f9b8ee7eb4a7c0f9e162bce33576b315ececbb6406837bf51f5

/-- The parameters `elliptic.P256().Params()`. -/
def params : elliptic.CurveParams := ⟨P, N, B, Gx, Gy, 256, "P-256"⟩

/-- Square-and-multiply loop of `powMod`. -/
def powModAux (m : Nat) : Nat → Nat → Nat → Nat → Nat
  | 0, _, _, acc => acc
  | fuel + 1, b, e, acc =>
    if e = 0 then acc
    else powModAux m fuel (b * b % m) (e / 2) (if e % 2 = 1 then acc * b % m else acc)

/-- Modular exponentiation `b ^ e mod m`. -/
def powMod (m b e : Nat) : Nat := powModAux m (e + 1) (b % m) e (1 % m)

/-- Inverse in the field of `P` elements, by Fermat. -/
def fieldInv (a : Nat) : Nat := powMod P a (P - 2)

/-- Doubling of an affine point that is not the point at infinity. -/
def double (x y : Nat) : Nat × Nat :=
  if y = 0 then (0, 0)
  else
    let l := (3 * x * x + (P - 3)) * fieldInv (2 * y) % P
    let x3 := (l * l + 2 * (P - x)) % P
    (x3, (l * (x + (P - x3)) + (P - y)) % P)

/-- Addition of two points, `(0, 0)` being the point at infinity. -/
def add (x1 y1 x2 y2 : Nat) : Nat × Nat :=
  if x1 = 0 ∧ y1 = 0 then (x2, y2)
  else if x2 = 0 ∧ y2 = 0 then (x1, y1)
  else if x1 = x2 then
    if y1 = y2 then double x1 y1 else (0, 0)
  else
    let l := (y2 + (P - y1)) * fieldInv (x2 + (P - x1)) % P
    let x3 := (l * l + (P - x1) + (P - x2)) % P
    (x3, (l * (x1 + (P - x3)) + (P - y1)) % P)

/-- Bit `i` of the scalar `k`. -/
def testBit (k i : Nat) : Bool := decide (k / 2 ^ i % 2 = 1)

/-- Double-and-add over the low `i` bits of `k`, most significant first. -/
def mulLoop (x y k : Nat) : Nat → Nat × Nat → Nat × Nat
  | 0, acc => acc
  | i + 1, acc =>
    let d := add acc.1 acc.2 acc.1 acc.2
    mulLoop x y k i (if testBit k i then add d.1 d.2 x y else d)

/-- The multiple of the point `(x, y)` by a 32-byte scalar of value `k`. -/
def scalarMul (x y k : Nat) : Nat × Nat := mulLoop x y k 256 (0, 0)

/-- The method `IsOnCurve` of `elliptic.P256()`. -/
def IsOnCurve (x y : Nat) : Bool := params.IsOnCurve x y

/-- What `pointFromAffine` accepts: the point at infinity `(0, 0)` or a point of the curve. -/
def valid (x y : Nat) : Bool := (x == 0 && y == 0) || IsOnCurve x y

/-- The value of the 32-byte scalar that `normalizeScalar` hands to the group operation: a
slice of 32 bytes is taken as it is, a shorter one is padded, a longer one is reduced
modulo `N`. -/
def normalizeScalar (scalar : List Nat) : Nat :=
  let byteSize := (256 + 7) / 8
  if scalar.length = byteSize then big.SetBytes scalar
  else if scalar.length > byteSize then big.SetBytes scalar % N
  else big.SetBytes scalar

/-- The method `Add` of `elliptic.P256()`: it panics (`none`) on an argument that is neither
on the curve nor `(0, 0)`. -/
def Add (x1 y1 x2 y2 : Nat) : Option (Nat × Nat) :=
  if valid x1 y1 && valid x2 y2 then some (add x1 y1 x2 y2) else none

/-- The method `ScalarMult` of `elliptic.P256()`: it panics (`none`) on a point that is
neither on the curve nor `(0, 0)`; the result for the point at infinity is `(0, 0)`, two
allocated integers. -/
def ScalarMult (Bx By : Nat) (scalar : List Nat) : Option (Nat × Nat) :=
  if valid Bx By then some (scalarMul Bx By (normalizeScalar scalar)) else none

/-- The method `ScalarBaseMult` of `elliptic.P256()`. -/
def ScalarBaseMult (scalar : List Nat) : Nat × Nat :=
  scalarMul Gx Gy (normalizeScalar scalar)

end P256

/-- The curve value `elliptic.P256()`. -/
def elliptic.P256 : elliptic.Curve :=
  ⟨P256.params, P256.Add, P256.ScalarMult, P256.ScalarBaseMult⟩

/-- The parameters of `elliptic.P384()`, another curve that `crypto/x509` accepts in a key. -/
def elliptic.p384Params : elliptic.CurveParams :=
  ⟨0xfffffffffffffffffffffffffffffffffffffffffffffffffffffffffffffffeffffffff0000000000000000ffffffff,
   0xffffffffffffffffffffffffffffffffffffffffffffffffc7634d81f4372ddf581a0db248b0a77aecec196accc52973,
   0xb3312fa7e23ee7e4988e056be3f82d19181d9c6efe8141120314088f5013875ac656398d8a2ed19d2a85c8edd3ec2aef,
   0xaa87ca22be8b05378eb1c71ef320ad746e1d3b628ba79b9859f741e082542a385502f25dbf55296c3a545e3872760ab7,
   0x3617de4a96262c6f5d9e98bf9292dc29f8f41dbd289a147ce9da3113b5f0b8c00a60b1ce1d7e819d7a431d7c90ea0e5f,
   384, "P-384"⟩

/-! ## crypto/rand and key generation -/

/-- The loop of `rand.Int(rand.Reader, max)`: each block read is masked to the bit length of
`max - 1` and returned when it is below `max`; `none` when the reader fails. The rest of
the random source is returned with the value. -/
def rand.intLoop (bitLen max : Nat) : List Nat → Option (Nat × List Nat)
  | [] => none
  | c :: rest =>
    if c % 2 ^ bitLen < max then some (c % 2 ^ bitLen, rest) else rand.intLoop bitLen max rest

/-- Loop of `BitLen`: count the bits of `n`. -/
def big.bitLenAux : Nat → Nat → Nat → Nat
  | 0, _, acc => acc
  | fuel + 1, n, acc => if n = 0 then acc else big.bitLenAux fuel (n / 2) (acc + 1)

/-- The method `(*big.Int).BitLen`: the number of bits of `n`, `0` for `0`. -/
def big.BitLen (n : Nat) : Nat := big.bitLenAux n n 0

/-- The function `rand.Int(rand.Reader, max)` for `max > 0`: with `max - 1` of bit length
`0` the only result is `0` and nothing is read. -/
def rand.Int (reader : List Nat) (max : Nat) : Option (Nat × List Nat) :=
  let bitLen := big.BitLen (max - 1)
  if bitLen = 0 then some (0, reader) else rand.intLoop bitLen max reader

/-- The method `FillBytes` on a 32-byte buffer, for a value below `2 ^ 256`. -/
def big.FillBytes32 (n : Nat) : List Nat :=
  List.replicate (32 - (big.Bytes n).length) 0 ++ big.Bytes n

/-- The function `elliptic.GenerateKey(curve, rand.Reader)` for a curve of 256-bit order:
each 32-byte block read has `0x42` xored into its second byte and is returned as the private
scalar, with its public point, when it is below `N`; `none` when the reader fails. The
scalar `0` is not excluded: it is returned, with the public point `(0, 0)`, for the block
`00 42 00 ... 00`. -/
def elliptic.GenerateKey (curve : elliptic.Curve) :
    List Nat → Option (List Nat × Nat × Nat × List Nat)
  | [] => none
  | c :: rest =>
    let priv := (c % 2 ^ 256) ^^^ (0x42 * 2 ^ 240)
    if priv ≥ curve.Params.N then elliptic.GenerateKey curve rest
    else
      let pub := curve.ScalarBaseMult (big.FillBytes32 priv)
      some (big.FillBytes32 priv, pub.1, pub.2, rest)

/-! ## Keys, PEM files and crypto/x509 -/

/-- The struct `ecdsa.PublicKey`; the curve is given by its parameters. -/
structure ecdsa.PublicKey where
  Curve : elliptic.CurveParams
  X : Nat
  Y : Nat
  deriving DecidableEq, Repr

/-- What the bytes of a PEM block hold, as `x509.ParsePKIXPublicKey` reads them. -/
inductive Der
  /-- A subject public key info for an elliptic curve key on a named curve, the point
  given in uncompressed form by its two coordinates. -/
  | ecPoint (curve : elliptic.CurveParams) (x y : Nat)
  /-- An elliptic curve key whose point bytes are not an uncompressed point (wrong length,
  the single byte of the point at infinity). -/
  | ecBadPoint (curve : elliptic.CurveParams)
  /-- A well-formed key of another algorithm (RSA, Ed25519, X25519, DSA). -/
  | otherKey (algorithm : String)
  /-- Bytes that are no subject public key info. -/
  | garbage
  deriving DecidableEq, Repr

/-- The struct `pem.Block` (its field `Type` is `BlockType` here). -/
structure pem.Block where
  BlockType : String
  Bytes : Der
  deriving DecidableEq, Repr

/-- The content of a file: bytes without a PEM block in them, or text whose first PEM
block is the given one. A file of the second kind is never hex text, because the armour
lines hold the byte `-`. -/
inductive FileData
  | raw (data : List Nat)
  | pem (block : pem.Block)
  deriving DecidableEq, Repr

/-- The file system. -/
abbrev FS := List (String × FileData)

/-- The value an `any` returned by `x509.ParsePKIXPublicKey` holds. -/
inductive AnyKey
  | ecdsa (key : ecdsa.PublicKey)
  | other (algorithm : String)
  deriving DecidableEq, Repr

/-- The function `x509.MarshalPKIXPublicKey` on an ECDSA key: a key that is not on its curve
is refused. -/
def x509.MarshalPKIXPublicKey (key : ecdsa.PublicKey) : Except String Der :=
  if key.Curve.IsOnCurve key.X key.Y then .ok (Der.ecPoint key.Curve key.X key.Y)
  else .error "x509: invalid elliptic curve public key"

/-- The function `x509.ParsePKIXPublicKey`: the point of an elliptic curve key is unmarshalled
on the named curve of the key, which fails unless it is on that curve. -/
def x509.ParsePKIXPublicKey : Der → Except String AnyKey
  | Der.ecPoint curve x y =>
    if curve.IsOnCurve x y then .ok (AnyKey.ecdsa ⟨curve, x, y⟩)
    else .error "x509: failed to unmarshal elliptic curve point"
  | Der.ecBadPoint _ => .error "x509: failed to unmarshal elliptic curve point"
  | Der.otherKey algorithm => .ok (AnyKey.other algorithm)
  | Der.garbage => .error "x509: failed to parse public key"

/-- The function `pem.Decode`: the first block of the data, if there is one. -/
def pem.Decode : FileData → Option pem.Block
  | FileData.raw _ => none
  | FileData.pem block => some block

/-- The function `os.ReadFile`. -/
def os.ReadFile (fs : FS) (filename : String) : Except String FileData :=
  match fs.lookup filename with
  | some data => .ok data
  | none => .error "open: no such file or directory"

/-- What the operating system does with one write of a file: it carries the write out; or
the file cannot be opened, and nothing changes; or the file is opened, which creates or
truncates it, and the write after it fails, the file being left with the content `left`
that had reached it, the empty content `FileData.raw []` when nothing had. -/
inductive WriteEnv
  | ok
  | openFails
  | writeFails (left : FileData)
  deriving DecidableEq, Repr

/-- A file opened for writing with `O_CREATE|O_TRUNC`: its name and the other files. From
the opening on the file exists; its content is what the writes to the handle leave. -/
structure os.File where
  name : String
  fs : FS
  deriving DecidableEq, Repr

/-- The function `os.Create` (`os.OpenFile` with `O_RDWR|O_CREATE|O_TRUNC`). -/
def os.Create (w : WriteEnv) (fs : FS) (filename : String) : Except String os.File :=
  match w with
  | WriteEnv.openFails => .error "open: permission denied"
  | _ => .ok ⟨filename, fs⟩

/-- The writes of `data` to an open file up to its close: the file system they leave and
the error, if any. -/
def os.File.Write (w : WriteEnv) (file : os.File) (data : FileData) : FS × Option String :=
  match w with
  | WriteEnv.writeFails left => ((file.name, left) :: file.fs, some "write: input/output error")
  | _ => ((file.name, data) :: file.fs, none)

/-- The function `os.WriteFile`: the file is opened with `O_WRONLY|O_CREATE|O_TRUNC`, then
written and closed. The result is the file system left and the error, if any. -/
def os.WriteFile (w : WriteEnv) (fs : FS) (filename : String) (data : FileData) :
    FS × Option String :=
  match os.Create w fs filename with
  | .error e => (fs, some e)
  | .ok file => os.File.Write w file data

/-- The function `pem.Encode` to an open file. -/
def pem.Encode (w : WriteEnv) (file : os.File) (block : pem.Block) : FS × Option String :=
  os.File.Write w file (FileData.pem block)

/-- The bytes of a file as `hex.DecodeString(string(data))` sees them; the first byte that
is not a hex digit of a file with a PEM block is reported as in `hex.DecodeString`. -/
def fileBytes : FileData → Except String (List Nat)
  | FileData.raw data => .ok data
  | FileData.pem _ => .error "encoding/hex: invalid byte"

/-! ## The program -/

/-- How a run ends. -/
inductive Exit
  | ok
  | exit1
  | panic
  deriving DecidableEq, Repr

/-- The state a run leaves: the file system, the lines printed, and how the run ended. -/
structure Outcome where
  fs : FS
  out : List String
  exit : Exit
  deriving DecidableEq, Repr

/-- The result of `loadPublicKey`: a key, an error, or the panic of the type assertion. -/
inductive Loaded
  | key (k : ecdsa.PublicKey)
  | error (msg : String)
  | panic
  deriving DecidableEq, Repr

/-- The function `savePublicKey`: the file system it leaves and the error, if any. -/
def savePublicKey (w : WriteEnv) (fs : FS) (filename : String) (key : ecdsa.PublicKey) :
    FS × Option String :=
  match x509.MarshalPKIXPublicKey key with
  | .error e => (fs, some e)
  | .ok der =>
    match os.Create w fs filename with
    | .error e => (fs, some e)
    | .ok file => pem.Encode w file ⟨"PUBLIC KEY", der⟩

/-- The function `loadPublicKey`. The type assertion `pub.(*ecdsa.PublicKey)` has no
second result, so it panics on a key of another type. -/
def loadPublicKey (fs : FS) (filename : String) : Loaded :=
  match os.ReadFile fs filename with
  | .error e => Loaded.error e
  | .ok data =>
    match pem.Decode data with
    | none => Loaded.error "failed to parse PEM block containing the key"
    | some block =>
      match x509.ParsePKIXPublicKey block.Bytes with
      | .error e => Loaded.error e
      | .ok (AnyKey.ecdsa key) => Loaded.key key
      | .ok (AnyKey.other _) => Loaded.panic

/-- The function `saveScalar`: the file system it leaves and the error, if any. -/
def saveScalar (w : WriteEnv) (fs : FS) (filename : String) (scalar : Nat) :
    FS × Option String :=
  os.WriteFile w fs filename (FileData.raw (hex.EncodeToString (big.Bytes scalar)))

/-- The function `loadScalar`. -/
def loadScalar (fs : FS) (filename : String) : Except String Nat :=
  match os.ReadFile fs filename with
  | .error e => .error e
  | .ok data =>
    match fileBytes data with
    | .error e => .error e
    | .ok text =>
      match hex.DecodeString text with
      | .error e => .error e
      | .ok bytes => .ok (big.SetBytes bytes)

/-- The function `generate` for a given curve. `reader` is the random source, `w1`, `w2`,
`w3` tell what becomes of the first, second and third write of the run. -/
def generateOn (curve : elliptic.Curve) (args : List String) (reader : List Nat)
    (w1 w2 w3 : WriteEnv) (fs : FS) : Outcome :=
  match args with
  | [pubKeyFile, chuckShareFile, aliceShareFile] =>
    match rand.Int reader curve.Params.N with
    | none => ⟨fs, [], Exit.panic⟩
    | some (a1, reader1) =>
      match rand.Int reader1 curve.Params.N with
      | none => ⟨fs, [], Exit.panic⟩
      | some (a2, _) =>
        let sum := (a1 + a2) % curve.Params.N
        let xy := curve.ScalarBaseMult (big.Bytes sum)
        let pubKey : ecdsa.PublicKey := ⟨curve.Params, xy.1, xy.2⟩
        match savePublicKey w1 fs pubKeyFile pubKey with
        | (fs1, some e) => ⟨fs1, ["Error saving public key: " ++ e], Exit.exit1⟩
        | (fs1, none) =>
          match saveScalar w2 fs1 chuckShareFile a2 with
          | (fs2, some e) => ⟨fs2, ["Error saving Chuck's share: " ++ e], Exit.exit1⟩
          | (fs2, none) =>
            match saveScalar w3 fs2 aliceShareFile a1 with
            | (fs3, some e) => ⟨fs3, ["Error saving Alice's share: " ++ e], Exit.exit1⟩
            | (fs3, none) => ⟨fs3, ["Key generation complete."], Exit.ok⟩
  | _ =>
    ⟨fs, ["Usage: mp-dh generate <pubkey_file> <chuck_share_file> <alice_share_file>"],
      Exit.exit1⟩

/-- The function `generate`. -/
def generate (args : List String) (reader : List Nat) (w1 w2 w3 : WriteEnv) (fs : FS) :
    Outcome :=
  generateOn elliptic.P256 args reader w1 w2 w3 fs

/-- A `*big.Int` returned by a curve method is an allocated integer, never `nil`; the point
at infinity comes back as the pair of zeros. -/
def isNil (_ : Nat) : Bool := false

/-- The function `send` for a given curve. `reader` is the random source and `w1` tells
what becomes of the write of the run. -/
def sendOn (curve : elliptic.Curve) (args : List String) (reader : List Nat) (w1 : WriteEnv)
    (fs : FS) : Outcome :=
  match args with
  | [pubKeyInputFile, ephemeralPubKeyOutputFile] =>
    match loadPublicKey fs pubKeyInputFile with
    | Loaded.panic => ⟨fs, [], Exit.panic⟩
    | Loaded.error e => ⟨fs, ["Error loading public key: " ++ e], Exit.exit1⟩
    | Loaded.key destPubKey =>
      match elliptic.GenerateKey curve reader with
      | none => ⟨fs, [], Exit.panic⟩
      | some (b, x, y, _) =>
        let ephemeralPubKey : ecdsa.PublicKey := ⟨curve.Params, x, y⟩
        match curve.ScalarMult destPubKey.X destPubKey.Y b with
        | none => ⟨fs, [], Exit.panic⟩
        | some (sx, sy) =>
          if isNil sx || isNil sy then ⟨fs, ["Error computing shared secret"], Exit.exit1⟩
          else
            match savePublicKey w1 fs ephemeralPubKeyOutputFile ephemeralPubKey with
            | (fs1, some e) => ⟨fs1, ["Error saving ephemeral public key: " ++ e], Exit.exit1⟩
            | (fs1, none) =>
              ⟨fs1, ["Sender Shared Secret (x-coord): " ++ fmt.text (fmt.sbx (big.Bytes sx))],
                Exit.ok⟩
  | _ =>
    ⟨fs, ["Usage: mp-dh send <pubkey_input_file> <ephemeral_pubkey_output_file>"], Exit.exit1⟩

/-- The function `send`. -/
def send (args : List String) (reader : List Nat) (w1 : WriteEnv) (fs : FS) : Outcome :=
  sendOn elliptic.P256 args reader w1 fs

/-- The function `recoverSecret` for a given curve. `w1` tells what becomes of the write of
the run. -/
def recoverSecretOn (curve : elliptic.Curve) (args : List String) (w1 : WriteEnv) (fs : FS) :
    Outcome :=
  match args with
  | [ephemeralPubKeyInputFile, chuckShareFile, aliceShareFile, outputSecretFile] =>
    match loadPublicKey fs ephemeralPubKeyInputFile with
    | Loaded.panic => ⟨fs, [], Exit.panic⟩
    | Loaded.error e => ⟨fs, ["Error loading ephemeral public key: " ++ e], Exit.exit1⟩
    | Loaded.key ephemeralPubKey =>
      match loadScalar fs chuckShareFile with
      | .error e => ⟨fs, ["Error loading Chuck's share: " ++ e], Exit.exit1⟩
      | .ok a2 =>
        match loadScalar fs aliceShareFile with
        | .error e => ⟨fs, ["Error loading Alice's share: " ++ e], Exit.exit1⟩
        | .ok a1 =>
          match curve.ScalarMult ephemeralPubKey.X ephemeralPubKey.Y (big.Bytes a1) with
          | none => ⟨fs, [], Exit.panic⟩
          | some (rx1, ry1) =>
            match curve.ScalarMult ephemeralPubKey.X ephemeralPubKey.Y (big.Bytes a2) with
            | none => ⟨fs, [], Exit.panic⟩
            | some (rx2, ry2) =>
              match curve.Add rx1 ry1 rx2 ry2 with
              | none => ⟨fs, [], Exit.panic⟩
              | some (sx, sy) =>
                let sum := (a1 + a2) % curve.Params.N
                match curve.ScalarMult ephemeralPubKey.X ephemeralPubKey.Y (big.Bytes sum) with
                | none => ⟨fs, [], Exit.panic⟩
                | some (checkX, checkY) =>
                  if sx ≠ checkX ∨ sy ≠ checkY then
                    ⟨fs, ["Error: Recovered secret does not match direct computation!"],
                      Exit.exit1⟩
                  else
                    let line :=
                      "Verification successful: Recovered secret matches direct computation."
                    match os.WriteFile w1 fs outputSecretFile
                        (FileData.raw (hex.EncodeToString (big.Bytes sx))) with
                    | (fs1, some e) =>
                      ⟨fs1, [line, "Error saving recovered secret: " ++ e], Exit.exit1⟩
                    | (fs1, none) =>
                      ⟨fs1, [line, "Recovered Shared Secret (x-coord): " ++
                        fmt.text (fmt.sbx (big.Bytes sx))], Exit.ok⟩
  | _ =>
    ⟨fs, ["Usage: mp-dh recover <ephemeral_pubkey_input_file> <chuck_share_file> " ++
      "<alice_share_file> <output_secret_file>"], Exit.exit1⟩

/-- The function `recoverSecret`. -/
def recoverSecret (args : List String) (w1 : WriteEnv) (fs : FS) : Outcome :=
  recoverSecretOn elliptic.P256 args w1 fs

/-- The function `main`: the first argument after the program name is the verb. -/
def main (args : List String) (reader : List Nat) (w1 w2 w3 : WriteEnv) (fs : FS) :
    Outcome :=
  match args with
  | _ :: verb :: rest =>
    if verb = "generate" then generate rest reader w1 w2 w3 fs
    else if verb = "send" then send rest reader w1 fs
    else if verb = "recover" then recoverSecret rest w1 fs
    else ⟨fs, ["Unknown verb: " ++ verb], Exit.exit1⟩
  | _ => ⟨fs, ["Usage: mp-dh <verb> [arguments]"], Exit.exit1⟩

/-! ## Definitions used by the proofs -/

open P256 WeierstrassCurve.Affine

/-- Check of a Lucas certificate: `a` has order `p - 1` modulo `p`, where `fs` lists the
prime powers of `p - 1`. -/
def lucasCheck (p a : Nat) (fs : List (Nat × Nat)) : Bool :=
  decide (1 < p) && ((fs.map (fun f => f.1 ^ f.2)).prod == p - 1) &&
    (P256.powMod p a (p - 1) == 1) && fs.all (fun f => P256.powMod p a ((p - 1) / f.1) != 1)

/-- The curve `y² = x³ - 3x + B` over the field of `P` elements. -/
def P256.W : WeierstrassCurve.Affine (ZMod P256.P) := ⟨0, 0, 0, -3, (P256.B : ZMod P256.P)⟩

/-- The pair `p` of coordinates stands for the point `Q` of the curve: `(0, 0)` for the
point at infinity, reduced coordinates for an affine point. -/
def Rep (p : Nat × Nat) (Q : W.Point) : Prop :=
  (p = (0, 0) ∧ Q = 0) ∨
    (p.1 < P ∧ p.2 < P ∧ ∃ h : W.Nonsingular (p.1 : ZMod P) (p.2 : ZMod P), Q = Point.some h)

/-- Product of two polynomials `c0 + c1 X + c2 X²` modulo `X³ - 3X + B` and `P`. -/
def cubicMul (s t : Nat × Nat × Nat) : Nat × Nat × Nat :=
  let d0 := s.1 * t.1
  let d1 := s.1 * t.2.1 + s.2.1 * t.1
  let d2 := s.1 * t.2.2 + s.2.1 * t.2.1 + s.2.2 * t.1
  let d3 := s.2.1 * t.2.2 + s.2.2 * t.2.1
  let d4 := s.2.2 * t.2.2
  ((d0 + (P - B) * d3) % P, (d1 + 3 * d3 + (P - B) * d4) % P, (d2 + 3 * d4) % P)

/-- Square-and-multiply loop of `cubicPow`. -/
def cubicPowAux : Nat → Nat × Nat × Nat → Nat → Nat × Nat × Nat → Nat × Nat × Nat
  | 0, _, _, acc => acc
  | fuel + 1, b, e, acc =>
    if e = 0 then acc
    else cubicPowAux fuel (cubicMul b b) (e / 2) (if e % 2 = 1 then cubicMul acc b else acc)

/-- The power `X ^ e` modulo `X³ - 3X + B` and `P`. -/
def cubicPow (e : Nat) : Nat × Nat × Nat := cubicPowAux (e + 1) (0, 1, 0) e (1, 0, 0)

/-- The value of `c0 + c1 X + c2 X²` at `r`. -/
def cubicEval (r : ZMod P) (s : Nat × Nat × Nat) : ZMod P :=
  (s.1 : ZMod P) + (s.2.1 : ZMod P) * r + (s.2.2 : ZMod P) * r ^ 2

/-- Coefficients `(u0, u1)` and `(v0, v1, v2)` of a Bezout identity between `X³ - 3X + B`
and `X ^ P - X` modulo `P`. -/
def bezoutU : Nat × Nat :=
  (107286402702237026811154678719514266289498743974321057492273529440068429825344,
   6389611969556882025875921584714237703390037729321797349080302270353162149340)

/-- The second cofactor of the Bezout identity. -/
def bezoutV : Nat × Nat × Nat :=
  (76626890310466861426869089647039036757962535851890885406097439786770458211455,
   74462945259064871768191128030512052509059297803194871526163573358218695456204,
   34768139465301476436978405170953382516735956999154666452188405812258086013549)

/-- An injective code of the points: the x-coordinate and which of `y`, `-y` is smaller. -/
def ptCode : W.Point → Option (ZMod P × Bool)
  | Point.zero => none
  | @Point.some _ _ _ x y _ => some (x, decide (y.val ≤ (-y).val))

/-- A curve value whose methods return fixed, inconsistent pairs: a faulty implementation,
for the mismatch branch of `recoverSecretOn`. -/
def faultyCurve : elliptic.Curve :=
  ⟨P256.params, fun _ _ _ _ => some (1, 2), fun _ _ _ => some (3, 4), fun _ => (0, 0)⟩

/-- A curve value whose methods hand their arguments back: `ScalarMult` returns the integer
of the scalar bytes as x-coordinate, `Add` the sum of the x-coordinates. It makes the scalars
that a run passes to the curve visible in the outcome of the run. -/
def echoCurve : elliptic.Curve :=
  ⟨P256.params, fun x1 _ x2 _ => some (x1 + x2, 0), fun _ _ k => some (big.SetBytes k, 0),
    fun k => (big.SetBytes k, 0)⟩

/-! ## Theorems -/

set_option linter.unusedVariables false
set_option maxRecDepth 1000000

/-! ### Modular exponentiation and Lucas certificates -/

theorem powModAux_cast (m : Nat) : ∀ (fuel b e acc : Nat), e < 2 ^ fuel →
    ((P256.powModAux m fuel b e acc : Nat) : ZMod m) = (acc : ZMod m) * (b : ZMod m) ^ e := by
  intro fuel
  induction fuel with
  | zero =>
    intro b e acc he
    have : e = 0 := by simpa using he
    subst this
    simp [P256.powModAux]
  | succ f ih =>
    intro b e acc he
    unfold P256.powModAux
    by_cases h0 : e = 0
    · simp [h0]
    · rw [if_neg h0]
      have hlt : e / 2 < 2 ^ f := by
        rw [Nat.div_lt_iff_lt_mul (by norm_num)]
        rw [pow_succ] at he
        exact he
      rw [ih _ _ _ hlt]
      have hsplit : e = 2 * (e / 2) + e % 2 := (Nat.div_add_mod e 2).symm
      rcases Nat.mod_two_eq_zero_or_one e with h | h
      · have he2 : e = 2 * (e / 2) := by omega
        rw [if_neg (by omega)]
        conv_rhs => rw [he2]
        rw [ZMod.natCast_mod, Nat.cast_mul, pow_mul, sq]
      · have he2 : e = 2 * (e / 2) + 1 := by omega
        rw [if_pos h]
        conv_rhs => rw [he2]
        rw [ZMod.natCast_mod, ZMod.natCast_mod, Nat.cast_mul, Nat.cast_mul, pow_succ, pow_mul, sq]
        ring

theorem powMod_cast (m b e : Nat) :
    ((P256.powMod m b e : Nat) : ZMod m) = (b : ZMod m) ^ e := by
  unfold P256.powMod
  have h : e < 2 ^ (e + 1) := lt_trans (Nat.lt_succ_self e) (Nat.lt_two_pow (e + 1))
  rw [powModAux_cast m _ _ _ _ h]
  simp

theorem powModAux_lt (m : Nat) : ∀ (fuel b e acc : Nat), acc < m →
    P256.powModAux m fuel b e acc < m := by
  intro fuel
  induction fuel with
  | zero => intro b e acc h; simpa [P256.powModAux] using h
  | succ f ih =>
    intro b e acc h
    unfold P256.powModAux
    split
    · exact h
    · apply ih
      split
      · exact Nat.mod_lt _ (by omega)
      · exact h

theorem powMod_lt (m b e : Nat) (hm : 1 < m) : P256.powMod m b e < m := by
  unfold P256.powMod
  exact powModAux_lt m _ _ _ _ (Nat.mod_lt _ (by omega))

theorem prime_of_lucasCheck (p a : Nat) (fs : List (Nat × Nat))
    (hp : ∀ f ∈ fs, Nat.Prime f.1) (h : lucasCheck p a fs = true) : Nat.Prime p := by
  simp only [lucasCheck, Bool.and_eq_true, decide_eq_true_eq, beq_iff_eq, List.all_eq_true,
    bne_iff_ne, ne_eq] at h
  obtain ⟨⟨⟨h1, hprod⟩, hpow⟩, hall⟩ := h
  have one_cast : ∀ e, P256.powMod p a e = 1 ↔ (a : ZMod p) ^ e = 1 := by
    intro e
    rw [← powMod_cast]
    constructor
    · intro h; rw [h]; simp
    · intro h
      have h2 : ((P256.powMod p a e : Nat) : ZMod p) = ((1 : Nat) : ZMod p) := by simpa using h
      rw [ZMod.natCast_eq_natCast_iff'] at h2
      rwa [Nat.mod_eq_of_lt (powMod_lt p a e h1), Nat.mod_eq_of_lt h1] at h2
  refine lucas_primality p (a : ZMod p) ((one_cast _).1 hpow) ?_
  intro q hq hdvd
  rw [← hprod] at hdvd
  clear hprod
  have : ∃ f ∈ fs, q ∣ f.1 ^ f.2 := by
    obtain ⟨x, hx, hqx⟩ := (Prime.dvd_prod_iff (Nat.prime_iff.1 hq)).1 hdvd
    obtain ⟨f, hf, rfl⟩ := List.mem_map.1 hx
    exact ⟨f, hf, hqx⟩
  obtain ⟨f, hf, hqf⟩ := this
  have hq1 : q = f.1 := (Nat.prime_dvd_prime_iff_eq hq (hp f hf)).1 (hq.dvd_of_dvd_pow hqf)
  rw [hq1, Ne, ← one_cast]
  exact hall f hf

/-! ### Primality of `P` and `N` -/

theorem prime_9350987 : Nat.Prime 9350987 :=
  prime_of_lucasCheck 9350987 2 [(2, 1), (17, 1), (229, 1), (1201, 1)]
    (List.forall_mem_cons.2 ⟨(by norm_num : Nat.Prime 2), List.forall_mem_cons.2 ⟨(by norm_num : Nat.Prime 17), List.forall_mem_cons.2 ⟨(by norm_num : Nat.Prime 229), List.forall_mem_cons.2 ⟨(by norm_num : Nat.Prime 1201), fun _ h => (List.not_mem_nil _ h).elim⟩⟩⟩⟩)
    (by decide!)

theorem prime_187019741 : Nat.Prime 187019741 :=
  prime_of_lucasCheck 187019741 2 [(2, 2), (5, 1), (9350987, 1)]
    (List.forall_mem_cons.2 ⟨(by norm_num : Nat.Prime 2), List.forall_mem_cons.2 ⟨(by norm_num : Nat.Prime 5), List.forall_mem_cons.2 ⟨prime_9350987, fun _ h => (List.not_mem_nil _ h).elim⟩⟩⟩)
    (by decide!)

theorem prime_311245691 : Nat.Prime 311245691 :=
  prime_of_lucasCheck 311245691 2 [(2, 1), (5, 1), (7, 1), (17, 1), (29, 2), (311, 1)]
    (List.forall_mem_cons.2 ⟨(by norm_num : Nat.Prime 2), List.forall_mem_cons.2 ⟨(by norm_num : Nat.Prime 5), List.forall_mem_cons.2 ⟨(by norm_num : Nat.Prime 7), List.forall_mem_cons.2 ⟨(by norm_num : Nat.Prime 17), List.forall_mem_cons.2 ⟨(by norm_num : Nat.Prime 29), List.forall_mem_cons.2 ⟨(by norm_num : Nat.Prime 311), fun _ h => (List.not_mem_nil _ h).elim⟩⟩⟩⟩⟩⟩)
    (by decide!)

theorem prime_622491383 : Nat.Prime 622491383 :=
  prime_of_lucasCheck 622491383 5 [(2, 1), (311245691, 1)]
    (List.forall_mem_cons.2 ⟨(by norm_num : Nat.Prime 2), List.forall_mem_cons.2 ⟨prime_311245691, fun _ h => (List.not_mem_nil _ h).elim⟩⟩)
    (by decide!)

theorem prime_126241 : Nat.Prime 126241 :=
  prime_of_lucasCheck 126241 7 [(2, 5), (3, 1), (5, 1), (263, 1)]
    (List.forall_mem_cons.2 ⟨(by norm_num : Nat.Prime 2), List.forall_mem_cons.2 ⟨(by norm_num : Nat.Prime 3), List.forall_mem_cons.2 ⟨(by norm_num : Nat.Prime 5), List.forall_mem_cons.2 ⟨(by norm_num : Nat.Prime 263), fun _ h => (List.not_mem_nil _ h).elim⟩⟩⟩⟩)
    (by decide!)

theorem prime_104471 : Nat.Prime 104471 :=
  prime_of_lucasCheck 104471 11 [(2, 1), (5, 1), (31, 1), (337, 1)]
    (List.forall_mem_cons.2 ⟨(by norm_num : Nat.Prime 2), List.forall_mem_cons.2 ⟨(by norm_num : Nat.Prime 5), List.forall_mem_cons.2 ⟨(by norm_num : Nat.Prime 31), List.forall_mem_cons.2 ⟨(by norm_num : Nat.Prime 337), fun _ h => (List.not_mem_nil _ h).elim⟩⟩⟩⟩)
    (by decide!)

theorem prime_3969899 : Nat.Prime 3969899 :=
  prime_of_lucasCheck 3969899 2 [(2, 1), (19, 1), (104471, 1)]
    (List.forall_mem_cons.2 ⟨(by norm_num : Nat.Prime 2), List.forall_mem_cons.2 ⟨(by norm_num : Nat.Prime 19), List.forall_mem_cons.2 ⟨prime_104471, fun _ h => (List.not_mem_nil _ h).elim⟩⟩⟩)
    (by decide!)

theorem prime_1002328039319 : Nat.Prime 1002328039319 :=
  prime_of_lucasCheck 1002328039319 19 [(2, 1), (126241, 1), (3969899, 1)]
    (List.forall_mem_cons.2 ⟨(by norm_num : Nat.Prime 2), List.forall_mem_cons.2 ⟨prime_126241, List.forall_mem_cons.2 ⟨prime_3969899, fun _ h => (List.not_mem_nil _ h).elim⟩⟩⟩)
    (by decide!)

theorem prime_155317 : Nat.Prime 155317 :=
  prime_of_lucasCheck 155317 5 [(2, 2), (3, 1), (7, 1), (43, 2)]
    (List.forall_mem_cons.2 ⟨(by norm_num : Nat.Prime 2), List.forall_mem_cons.2 ⟨(by norm_num : Nat.Prime 3), List.forall_mem_cons.2 ⟨(by norm_num : Nat.Prime 7), List.forall_mem_cons.2 ⟨(by norm_num : Nat.Prime 43), fun _ h => (List.not_mem_nil _ h).elim⟩⟩⟩⟩)
    (by decide!)

theorem prime_191039911 : Nat.Prime 191039911 :=
  prime_of_lucasCheck 191039911 3 [(2, 1), (3, 1), (5, 1), (41, 1), (155317, 1)]
    (List.forall_mem_cons.2 ⟨(by norm_num : Nat.Prime 2), List.forall_mem_cons.2 ⟨(by norm_num : Nat.Prime 3), List.forall_mem_cons.2 ⟨(by norm_num : Nat.Prime 5), List.forall_mem_cons.2 ⟨(by norm_num : Nat.Prime 41), List.forall_mem_cons.2 ⟨prime_155317, fun _ h => (List.not_mem_nil _ h).elim⟩⟩⟩⟩⟩)
    (by decide!)

theorem prime_208150935158385979 : Nat.Prime 208150935158385979 :=
  prime_of_lucasCheck 208150935158385979 2 [(2, 1), (3, 1), (11, 1), (43, 1), (127, 1), (3023, 1), (191039911, 1)]
    (List.forall_mem_cons.2 ⟨(by norm_num : Nat.Prime 2), List.forall_mem_cons.2 ⟨(by norm_num : Nat.Prime 3), List.forall_mem_cons.2 ⟨(by norm_num : Nat.Prime 11), List.forall_mem_cons.2 ⟨(by norm_num : Nat.Prime 43), List.forall_mem_cons.2 ⟨(by norm_num : Nat.Prime 127), List.forall_mem_cons.2 ⟨(by norm_num : Nat.Prime 3023), List.forall_mem_cons.2 ⟨prime_191039911, fun _ h => (List.not_mem_nil _ h).elim⟩⟩⟩⟩⟩⟩⟩)
    (by decide!)

theorem prime_2624747550333869278416773953 : Nat.Prime 2624747550333869278416773953 :=
  prime_of_lucasCheck 2624747550333869278416773953 7 [(2, 6), (3, 2), (1297, 1), (16879, 1), (208150935158385979, 1)]
    (List.forall_mem_cons.2 ⟨(by norm_num : Nat.Prime 2), List.forall_mem_cons.2 ⟨(by norm_num : Nat.Prime 3), List.forall_mem_cons.2 ⟨(by norm_num : Nat.Prime 1297), List.forall_mem_cons.2 ⟨(by norm_num : Nat.Prime 16879), List.forall_mem_cons.2 ⟨prime_208150935158385979, fun _ h => (List.not_mem_nil _ h).elim⟩⟩⟩⟩⟩)
    (by decide!)

theorem prime_N : Nat.Prime P256.N :=
  prime_of_lucasCheck P256.N 7 [(2, 4), (3, 1), (71, 1), (131, 1), (373, 1), (3407, 1), (17449, 1), (38189, 1), (187019741, 1), (622491383, 1), (1002328039319, 1), (2624747550333869278416773953, 1)]
    (List.forall_mem_cons.2 ⟨(by norm_num : Nat.Prime 2), List.forall_mem_cons.2 ⟨(by norm_num : Nat.Prime 3), List.forall_mem_cons.2 ⟨(by norm_num : Nat.Prime 71), List.forall_mem_cons.2 ⟨(by norm_num : Nat.Prime 131), List.forall_mem_cons.2 ⟨(by norm_num : Nat.Prime 373), List.forall_mem_cons.2 ⟨(by norm_num : Nat.Prime 3407), List.forall_mem_cons.2 ⟨(by norm_num : Nat.Prime 17449), List.forall_mem_cons.2 ⟨(by norm_num : Nat.Prime 38189), List.forall_mem_cons.2 ⟨prime_187019741, List.forall_mem_cons.2 ⟨prime_622491383, List.forall_mem_cons.2 ⟨prime_1002328039319, List.forall_mem_cons.2 ⟨prime_2624747550333869278416773953, fun _ h => (List.not_mem_nil _ h).elim⟩⟩⟩⟩⟩⟩⟩⟩⟩⟩⟩⟩)
    (by decide!)

theorem prime_6700417 : Nat.Prime 6700417 :=
  prime_of_lucasCheck 6700417 5 [(2, 7), (3, 1), (17449, 1)]
    (List.forall_mem_cons.2 ⟨(by norm_num : Nat.Prime 2), List.forall_mem_cons.2 ⟨(by norm_num : Nat.Prime 3), List.forall_mem_cons.2 ⟨(by norm_num : Nat.Prime 17449), fun _ h => (List.not_mem_nil _ h).elim⟩⟩⟩)
    (by decide!)

theorem prime_490463 : Nat.Prime 490463 :=
  prime_of_lucasCheck 490463 14 [(2, 1), (7, 1), (53, 1), (661, 1)]
    (List.forall_mem_cons.2 ⟨(by norm_num : Nat.Prime 2), List.forall_mem_cons.2 ⟨(by norm_num : Nat.Prime 7), List.forall_mem_cons.2 ⟨(by norm_num : Nat.Prime 53), List.forall_mem_cons.2 ⟨(by norm_num : Nat.Prime 661), fun _ h => (List.not_mem_nil _ h).elim⟩⟩⟩⟩)
    (by decide!)

theorem prime_204061199 : Nat.Prime 204061199 :=
  prime_of_lucasCheck 204061199 11 [(2, 1), (11, 1), (23, 1), (107, 1), (3769, 1)]
    (List.forall_mem_cons.2 ⟨(by norm_num : Nat.Prime 2), List.forall_mem_cons.2 ⟨(by norm_num : Nat.Prime 11), List.forall_mem_cons.2 ⟨(by norm_num : Nat.Prime 23), List.forall_mem_cons.2 ⟨(by norm_num : Nat.Prime 107), List.forall_mem_cons.2 ⟨(by norm_num : Nat.Prime 3769), fun _ h => (List.not_mem_nil _ h).elim⟩⟩⟩⟩⟩)
    (by decide!)

theorem prime_34282281433 : Nat.Prime 34282281433 :=
  prime_of_lucasCheck 34282281433 17 [(2, 3), (3, 1), (7, 1), (204061199, 1)]
    (List.forall_mem_cons.2 ⟨(by norm_num : Nat.Prime 2), List.forall_mem_cons.2 ⟨(by norm_num : Nat.Prime 3), List.forall_mem_cons.2 ⟨(by norm_num : Nat.Prime 7), List.forall_mem_cons.2 ⟨prime_204061199, fun _ h => (List.not_mem_nil _ h).elim⟩⟩⟩⟩)
    (by decide!)

theorem prime_66417393611 : Nat.Prime 66417393611 :=
  prime_of_lucasCheck 66417393611 6 [(2, 1), (5, 1), (53, 1), (173, 1), (197, 1), (3677, 1)]
    (List.forall_mem_cons.2 ⟨(by norm_num : Nat.Prime 2), List.forall_mem_cons.2 ⟨(by norm_num : Nat.Prime 5), List.forall_mem_cons.2 ⟨(by norm_num : Nat.Prime 53), List.forall_mem_cons.2 ⟨(by norm_num : Nat.Prime 173), List.forall_mem_cons.2 ⟨(by norm_num : Nat.Prime 197), List.forall_mem_cons.2 ⟨(by norm_num : Nat.Prime 3677), fun _ h => (List.not_mem_nil _ h).elim⟩⟩⟩⟩⟩⟩)
    (by decide!)

theorem prime_11290956913871 : Nat.Prime 11290956913871 :=
  prime_of_lucasCheck 11290956913871 13 [(2, 1), (5, 1), (17, 1), (66417393611, 1)]
    (List.forall_mem_cons.2 ⟨(by norm_num : Nat.Prime 2), List.forall_mem_cons.2 ⟨(by norm_num : Nat.Prime 5), List.forall_mem_cons.2 ⟨(by norm_num : Nat.Prime 17), List.forall_mem_cons.2 ⟨prime_66417393611, fun _ h => (List.not_mem_nil _ h).elim⟩⟩⟩⟩)
    (by decide!)

theorem prime_704251 : Nat.Prime 704251 :=
  prime_of_lucasCheck 704251 2 [(2, 1), (3, 2), (5, 3), (313, 1)]
    (List.forall_mem_cons.2 ⟨(by norm_num : Nat.Prime 2), List.forall_mem_cons.2 ⟨(by norm_num : Nat.Prime 3), List.forall_mem_cons.2 ⟨(by norm_num : Nat.Prime 5), List.forall_mem_cons.2 ⟨(by norm_num : Nat.Prime 313), fun _ h => (List.not_mem_nil _ h).elim⟩⟩⟩⟩)
    (by decide!)

theorem prime_46076956964474543 : Nat.Prime 46076956964474543 :=
  prime_of_lucasCheck 46076956964474543 5 [(2, 1), (23, 1), (18169, 1), (78283, 1), (704251, 1)]
    (List.forall_mem_cons.2 ⟨(by norm_num : Nat.Prime 2), List.forall_mem_cons.2 ⟨(by norm_num : Nat.Prime 23), List.forall_mem_cons.2 ⟨(by norm_num : Nat.Prime 18169), List.forall_mem_cons.2 ⟨(by norm_num : Nat.Prime 78283), List.forall_mem_cons.2 ⟨prime_704251, fun _ h => (List.not_mem_nil _ h).elim⟩⟩⟩⟩⟩)
    (by decide!)

theorem prime_774023187263532362759620327192479577272145303 : Nat.Prime 774023187263532362759620327192479577272145303 :=
  prime_of_lucasCheck 774023187263532362759620327192479577272145303 3 [(2, 1), (3, 2), (2411, 1), (34282281433, 1), (11290956913871, 1), (46076956964474543, 1)]
    (List.forall_mem_cons.2 ⟨(by norm_num : Nat.Prime 2), List.forall_mem_cons.2 ⟨(by norm_num : Nat.Prime 3), List.forall_mem_cons.2 ⟨(by norm_num : Nat.Prime 2411), List.forall_mem_cons.2 ⟨prime_34282281433, List.forall_mem_cons.2 ⟨prime_11290956913871, List.forall_mem_cons.2 ⟨prime_46076956964474543, fun _ h => (List.not_mem_nil _ h).elim⟩⟩⟩⟩⟩⟩)
    (by decide!)

theorem prime_835945042244614951780389953367877943453916927241 : Nat.Prime 835945042244614951780389953367877943453916927241 :=
  prime_of_lucasCheck 835945042244614951780389953367877943453916927241 11 [(2, 3), (3, 3), (5, 1), (774023187263532362759620327192479577272145303, 1)]
    (List.forall_mem_cons.2 ⟨(by norm_num : Nat.Prime 2), List.forall_mem_cons.2 ⟨(by norm_num : Nat.Prime 3), List.forall_mem_cons.2 ⟨(by norm_num : Nat.Prime 5), List.forall_mem_cons.2 ⟨prime_774023187263532362759620327192479577272145303, fun _ h => (List.not_mem_nil _ h).elim⟩⟩⟩⟩)
    (by decide!)

theorem prime_P : Nat.Prime P256.P :=
  prime_of_lucasCheck P256.P 6 [(2, 1), (3, 1), (5, 2), (17, 1), (257, 1), (641, 1), (1531, 1), (65537, 1), (490463, 1), (6700417, 1), (835945042244614951780389953367877943453916927241, 1)]
    (List.forall_mem_cons.2 ⟨(by norm_num : Nat.Prime 2), List.forall_mem_cons.2 ⟨(by norm_num : Nat.Prime 3), List.forall_mem_cons.2 ⟨(by norm_num : Nat.Prime 5), List.forall_mem_cons.2 ⟨(by norm_num : Nat.Prime 17), List.forall_mem_cons.2 ⟨(by norm_num : Nat.Prime 257), List.forall_mem_cons.2 ⟨(by norm_num : Nat.Prime 641), List.forall_mem_cons.2 ⟨(by norm_num : Nat.Prime 1531), List.forall_mem_cons.2 ⟨(by norm_num : Nat.Prime 65537), List.forall_mem_cons.2 ⟨prime_490463, List.forall_mem_cons.2 ⟨prime_6700417, List.forall_mem_cons.2 ⟨prime_835945042244614951780389953367877943453916927241, fun _ h => (List.not_mem_nil _ h).elim⟩⟩⟩⟩⟩⟩⟩⟩⟩⟩⟩)
    (by decide!)

/-! ### Bytes and hex text -/

theorem foldl_bytes (l : List Nat) (a : Nat) :
    l.foldl (fun acc b => acc * 256 + b) a =
      a * 256 ^ l.length + l.foldl (fun acc b => acc * 256 + b) 0 := by
  induction l generalizing a with
  | nil => simp
  | cons b l ih =>
    simp only [List.foldl_cons, List.length_cons]
    rw [ih (a * 256 + b), ih (0 * 256 + b)]
    ring

theorem setBytes_cons (b : Nat) (l : List Nat) :
    big.SetBytes (b :: l) = b * 256 ^ l.length + big.SetBytes l := by
  unfold big.SetBytes
  rw [List.foldl_cons, foldl_bytes]
  ring

theorem setBytes_append (l m : List Nat) :
    big.SetBytes (l ++ m) = big.SetBytes l * 256 ^ m.length + big.SetBytes m := by
  unfold big.SetBytes
  rw [List.foldl_append, foldl_bytes]

theorem setBytes_bytesAux : ∀ (fuel n : Nat) (acc : List Nat), n ≤ fuel →
    big.SetBytes (big.bytesAux fuel n acc) = n * 256 ^ acc.length + big.SetBytes acc := by
  intro fuel
  induction fuel with
  | zero =>
    intro n acc h
    have : n = 0 := by omega
    subst this
    simp [big.bytesAux]
  | succ f ih =>
    intro n acc h
    unfold big.bytesAux
    by_cases h0 : n = 0
    · simp [h0]
    · rw [if_neg h0, ih _ _ (by omega), setBytes_cons, List.length_cons, pow_succ]
      have := Nat.div_add_mod n 256
      calc n / 256 * (256 ^ acc.length * 256) + (n % 256 * 256 ^ acc.length + big.SetBytes acc)
          = (256 * (n / 256) + n % 256) * 256 ^ acc.length + big.SetBytes acc := by ring
        _ = n * 256 ^ acc.length + big.SetBytes acc := by rw [this]

theorem setBytes_bytes (n : Nat) : big.SetBytes (big.Bytes n) = n := by
  unfold big.Bytes
  rw [setBytes_bytesAux n n [] le_rfl]
  simp [big.SetBytes]

theorem bytesAux_lt : ∀ (fuel n : Nat) (acc : List Nat), (∀ b ∈ acc, b < 256) →
    ∀ b ∈ big.bytesAux fuel n acc, b < 256 := by
  intro fuel
  induction fuel with
  | zero => intro n acc h; simpa [big.bytesAux] using h
  | succ f ih =>
    intro n acc h
    unfold big.bytesAux
    split
    · exact h
    · apply ih
      intro b hb
      rcases List.mem_cons.1 hb with rfl | hb
      · exact Nat.mod_lt _ (by norm_num)
      · exact h b hb

theorem bytes_lt (n : Nat) : ∀ b ∈ big.Bytes n, b < 256 :=
  bytesAux_lt n n [] (by simp)

theorem bytesAux_length_ge : ∀ (fuel n : Nat) (acc : List Nat),
    acc.length ≤ (big.bytesAux fuel n acc).length := by
  intro fuel
  induction fuel with
  | zero => intro n acc; simp [big.bytesAux]
  | succ f ih =>
    intro n acc
    unfold big.bytesAux
    split
    · exact le_rfl
    · have := ih (n / 256) (n % 256 :: acc)
      simp only [List.length_cons] at this
      omega

theorem bytesAux_length : ∀ (fuel n : Nat) (acc : List Nat) (k : Nat), n ≤ fuel →
    ((big.bytesAux fuel n acc).length ≤ acc.length + k ↔ n < 256 ^ k) := by
  intro fuel
  induction fuel with
  | zero =>
    intro n acc k h
    have : n = 0 := by omega
    subst this
    simp [big.bytesAux]
  | succ f ih =>
    intro n acc k h
    unfold big.bytesAux
    by_cases h0 : n = 0
    · simp [h0]
    · rw [if_neg h0]
      cases k with
      | zero =>
        have hge := bytesAux_length_ge f (n / 256) (n % 256 :: acc)
        simp only [List.length_cons] at hge
        constructor
        · intro hl
          omega
        · intro hn
          simp at hn
          omega
      | succ k =>
        have h1 := ih (n / 256) (n % 256 :: acc) k (by omega)
        simp only [List.length_cons] at h1
        rw [show acc.length + (k + 1) = acc.length + 1 + k by ring, h1, pow_succ,
          Nat.div_lt_iff_lt_mul (by norm_num)]

theorem bytes_length_le (n k : Nat) : (big.Bytes n).length ≤ k ↔ n < 256 ^ k := by
  have := bytesAux_length n n [] k le_rfl
  simpa [big.Bytes] using this

theorem fromHexChar_hextable : ∀ d, d < 16 →
    hex.fromHexChar (hex.hextable.getD d 0) = some d := by decide

theorem ldigits_hextable : ∀ d, d < 16 → fmt.ldigits.getD d 0 = hex.hextable.getD d 0 := by
  decide

theorem decode_encode (bs : List Nat) (h : ∀ b ∈ bs, b < 256) :
    hex.DecodeString (hex.EncodeToString bs) = .ok bs := by
  induction bs with
  | nil => rfl
  | cons v rest ih =>
    have hv : v < 256 := h v (List.mem_cons_self _ _)
    have hr : ∀ b ∈ rest, b < 256 := fun b hb => h b (List.mem_cons_of_mem _ hb)
    simp only [hex.EncodeToString, hex.DecodeString]
    rw [fromHexChar_hextable _ (by omega), fromHexChar_hextable _ (Nat.mod_lt _ (by norm_num))]
    simp only [ih hr]
    have : v / 16 * 16 + v % 16 = v := by omega
    rw [this]

theorem sbx_eq_encode (bs : List Nat) (h : ∀ b ∈ bs, b < 256) :
    fmt.sbx bs = hex.EncodeToString bs := by
  induction bs with
  | nil => rfl
  | cons v rest ih =>
    have hv : v < 256 := h v (List.mem_cons_self _ _)
    have hr : ∀ b ∈ rest, b < 256 := fun b hb => h b (List.mem_cons_of_mem _ hb)
    simp only [fmt.sbx, hex.EncodeToString]
    rw [ldigits_hextable _ (by omega), ldigits_hextable _ (Nat.mod_lt _ (by norm_num)), ih hr]

theorem setBytes_replicate_zero (k : Nat) (l : List Nat) :
    big.SetBytes (List.replicate k 0 ++ l) = big.SetBytes l := by
  rw [setBytes_append]
  have : big.SetBytes (List.replicate k 0) = 0 := by
    induction k with
    | zero => rfl
    | succ k ih => rw [List.replicate_succ, setBytes_cons, ih]; simp
  rw [this]
  simp

theorem setBytes_fillBytes32 (n : Nat) : big.SetBytes (big.FillBytes32 n) = n := by
  unfold big.FillBytes32
  rw [setBytes_replicate_zero, setBytes_bytes]

theorem length_fillBytes32 {n : Nat} (h : n < 2 ^ 256) : (big.FillBytes32 n).length = 32 := by
  unfold big.FillBytes32
  have : (big.Bytes n).length ≤ 32 := (bytes_length_le n 32).2 (by
    calc n < 2 ^ 256 := h
      _ = 256 ^ 32 := by norm_num)
  rw [List.length_append, List.length_replicate]
  omega

theorem normalizeScalar_fillBytes32 {n : Nat} (h : n < 2 ^ 256) :
    P256.normalizeScalar (big.FillBytes32 n) = n := by
  unfold P256.normalizeScalar
  simp only [length_fillBytes32 h]
  simp [setBytes_fillBytes32]

theorem normalizeScalar_bytes (n : Nat) :
    P256.normalizeScalar (big.Bytes n) = if n < 2 ^ 256 then n else n % P256.N := by
  unfold P256.normalizeScalar
  simp only [setBytes_bytes]
  have hk := bytes_length_le n 32
  have e : (256 : Nat) ^ 32 = 2 ^ 256 := by norm_num
  rw [e] at hk
  by_cases hn : n < 2 ^ 256
  · have hl := hk.2 hn
    rw [if_pos hn]
    split
    · rfl
    · rw [if_neg (by simp only [Nat.reduceAdd, Nat.reduceDiv]; omega)]
  · have hl : ¬ (big.Bytes n).length ≤ 32 := fun h => hn (hk.1 h)
    rw [if_neg hn, if_neg (by simp only [Nat.reduceAdd, Nat.reduceDiv]; omega),
      if_pos (by simp only [Nat.reduceAdd, Nat.reduceDiv]; omega)]

theorem normalizeScalar_bytes_of_lt {n : Nat} (h : n < P256.N) :
    P256.normalizeScalar (big.Bytes n) = n := by
  rw [normalizeScalar_bytes, if_pos (lt_trans h (by decide))]

/-! ### The field of `P` elements and the curve -/

@[instance] theorem P256.fact_prime : Fact (Nat.Prime P256.P) := ⟨prime_P⟩

theorem natCast_inj_of_lt {a b : Nat} (ha : a < P) (hb : b < P)
    (h : (a : ZMod P) = (b : ZMod P)) : a = b := by
  rw [ZMod.natCast_eq_natCast_iff'] at h
  rwa [Nat.mod_eq_of_lt ha, Nat.mod_eq_of_lt hb] at h

theorem cast_P_sub {x : Nat} (h : x ≤ P) : ((P - x : Nat) : ZMod P) = -(x : ZMod P) := by
  rw [Nat.cast_sub h, ZMod.natCast_self, zero_sub]

theorem fieldInv_cast (a : Nat) : ((fieldInv a : Nat) : ZMod P) = (a : ZMod P)⁻¹ := by
  unfold fieldInv
  rw [powMod_cast]
  by_cases h : (a : ZMod P) = 0
  · rw [h, inv_zero]
    exact zero_pow (by decide)
  · have h1 : (a : ZMod P) ^ (P - 1) = 1 := ZMod.pow_card_sub_one_eq_one h
    have h2 : (a : ZMod P) ^ (P - 2) * (a : ZMod P) = 1 := by
      rw [← pow_succ]
      have : P - 2 + 1 = P - 1 := by decide
      rw [this, h1]
    exact eq_inv_of_mul_eq_one_left h2

theorem W_equation (x y : ZMod P) :
    W.Equation x y ↔ y ^ 2 = x ^ 3 - 3 * x + (B : ZMod P) := by
  rw [WeierstrassCurve.Affine.equation_iff]
  simp only [W]
  constructor
  · intro h; linear_combination h
  · intro h; linear_combination h

theorem W_disc_ne_zero : W.Δ ≠ 0 := by
  intro h
  simp only [WeierstrassCurve.Δ, WeierstrassCurve.b₂, WeierstrassCurve.b₄, WeierstrassCurve.b₆,
    WeierstrassCurve.b₈, W] at h
  have h2 : ((432 * B * B : Nat) : ZMod P) = ((1728 : Nat) : ZMod P) := by
    push_cast
    linear_combination -h
  rw [ZMod.natCast_eq_natCast_iff'] at h2
  revert h2
  decide

theorem W_nonsingular {x y : ZMod P} (h : W.Equation x y) : W.Nonsingular x y :=
  WeierstrassCurve.Affine.nonsingular_of_Δ_ne_zero W h W_disc_ne_zero

theorem P_pos : 3 ≤ P := by decide

theorem isOnCurve_iff (x y : Nat) :
    IsOnCurve x y = true ↔ x < P ∧ y < P ∧ W.Equation (x : ZMod P) (y : ZMod P) := by
  have hB : ¬ (0 * 0 % P = (0 * 0 * 0 + (P - 3) * 0 + B) % P) := by decide
  have key : (y * y % P = (x * x * x + (P - 3) * x + B) % P) ↔
      W.Equation (x : ZMod P) (y : ZMod P) := by
    rw [W_equation, ← ZMod.natCast_eq_natCast_iff']
    push_cast
    rw [cast_P_sub P_pos]
    constructor
    · intro h; push_cast at h; linear_combination h
    · intro h; push_cast; linear_combination h
  unfold IsOnCurve elliptic.CurveParams.IsOnCurve
  simp only [params, Bool.and_eq_true, Bool.not_eq_true', Bool.and_eq_false_imp, beq_iff_eq,
    decide_eq_true_eq, beq_eq_false_iff_ne, ne_eq]
  rw [key]
  constructor
  · rintro ⟨⟨⟨_, hx⟩, hy⟩, he⟩
    exact ⟨hx, hy, he⟩
  · rintro ⟨hx, hy, he⟩
    refine ⟨⟨⟨?_, hx⟩, hy⟩, he⟩
    rintro rfl rfl
    exact hB (key.2 he)

theorem not_equation_zero : ¬ W.Equation ((0 : Nat) : ZMod P) ((0 : Nat) : ZMod P) := by
  intro h
  have := (isOnCurve_iff 0 0).2 ⟨by decide, by decide, h⟩
  revert this
  decide

/-! ### Coordinates and points of the curve -/

theorem rep_zero : Rep (0, 0) 0 := Or.inl ⟨rfl, rfl⟩

theorem rep_some {x y : Nat} {X Y : ZMod P} (h : W.Nonsingular X Y) (hx : x < P) (hy : y < P)
    (hX : (x : ZMod P) = X) (hY : (y : ZMod P) = Y) : Rep (x, y) (Point.some h) := by
  subst hX hY
  exact Or.inr ⟨hx, hy, h, rfl⟩

theorem rep_of_isOnCurve {x y : Nat} (h : IsOnCurve x y = true) :
    ∃ hn : W.Nonsingular (x : ZMod P) (y : ZMod P), Rep (x, y) (Point.some hn) := by
  obtain ⟨hx, hy, he⟩ := (isOnCurve_iff x y).1 h
  exact ⟨W_nonsingular he, rep_some _ hx hy rfl rfl⟩

theorem rep_of_valid {x y : Nat} (h : valid x y = true) : ∃ Q, Rep (x, y) Q := by
  unfold valid at h
  simp only [Bool.or_eq_true, Bool.and_eq_true, beq_iff_eq] at h
  rcases h with ⟨rfl, rfl⟩ | h
  · exact ⟨0, rep_zero⟩
  · obtain ⟨hn, hr⟩ := rep_of_isOnCurve h
    exact ⟨_, hr⟩

theorem rep_cases {p : Nat × Nat} {Q : W.Point} (h : Rep p Q) :
    (p = (0, 0) ∧ Q = 0) ∨ (IsOnCurve p.1 p.2 = true ∧ Q ≠ 0) := by
  rcases h with h | ⟨hx, hy, hn, rfl⟩
  · exact Or.inl h
  · exact Or.inr ⟨(isOnCurve_iff _ _).2 ⟨hx, hy, hn.1⟩, Point.some_ne_zero hn⟩

theorem rep_valid {p : Nat × Nat} {Q : W.Point} (h : Rep p Q) : valid p.1 p.2 = true := by
  unfold valid
  rcases rep_cases h with ⟨rfl, _⟩ | ⟨h, _⟩
  · rfl
  · simp [h]

theorem rep_zero_iff {p : Nat × Nat} {Q : W.Point} (h : Rep p Q) : Q = 0 ↔ p = (0, 0) := by
  rcases h with ⟨hp, hQ⟩ | ⟨hx, hy, hn, rfl⟩
  · simp [hp, hQ]
  · constructor
    · intro h; exact absurd h (Point.some_ne_zero hn)
    · intro h
      exfalso
      have h1 : p.1 = 0 := by rw [h]
      have h2 : p.2 = 0 := by rw [h]
      apply not_equation_zero
      have := hn.1
      rwa [h1, h2] at this

theorem rep_point_unique {p : Nat × Nat} {Q Q' : W.Point} (h : Rep p Q) (h' : Rep p Q') :
    Q = Q' := by
  rcases h with ⟨hp, hQ⟩ | ⟨hx, hy, hn, rfl⟩
  · rw [hQ]; exact ((rep_zero_iff h').2 hp).symm
  · rcases h' with ⟨hp, hQ⟩ | ⟨_, _, hn', rfl⟩
    · exact absurd ((rep_zero_iff (Or.inr ⟨hx, hy, hn, rfl⟩)).2 hp) (Point.some_ne_zero hn)
    · rfl

theorem rep_coords_unique {p p' : Nat × Nat} {Q : W.Point} (h : Rep p Q) (h' : Rep p' Q) :
    p = p' := by
  rcases h with ⟨hp, hQ⟩ | ⟨hx, hy, hn, hQ⟩
  · rw [hp]; exact ((rep_zero_iff h').1 hQ).symm
  · rcases h' with ⟨hp', hQ'⟩ | ⟨hx', hy', hn', hQ'⟩
    · rw [hQ'] at hQ
      exact absurd hQ.symm (Point.some_ne_zero hn)
    · rw [hQ] at hQ'
      simp only [Point.some.injEq] at hQ'
      exact Prod.ext (natCast_inj_of_lt hx hx' hQ'.1) (natCast_inj_of_lt hy hy' hQ'.2)

/-! ### The group law -/

theorem two_ne_zero_F : (2 : ZMod P) ≠ 0 := by
  intro h
  have h2 : ((2 : Nat) : ZMod P) = ((0 : Nat) : ZMod P) := by simpa using h
  rw [ZMod.natCast_eq_natCast_iff'] at h2
  revert h2
  decide

theorem cast_ne_zero_of_pos {y : Nat} (hy : y < P) (h0 : y ≠ 0) : (y : ZMod P) ≠ 0 := by
  intro h
  apply h0
  exact natCast_inj_of_lt hy (by decide) (by simpa using h)

theorem div_congr_helper {a b c d : ZMod P} (hb : b = d) (ha : a = c) :
    a / b = c * d⁻¹ := by
  rw [ha, hb, div_eq_mul_inv]

theorem rep_double {x y : Nat} (hx : x < P) (hy : y < P)
    (hn : W.Nonsingular (x : ZMod P) (y : ZMod P)) :
    Rep (double x y) (Point.some hn + Point.some hn) := by
  unfold double
  by_cases h0 : y = 0
  · rw [if_pos h0]
    have : Point.some hn + Point.some hn = 0 := by
      apply Point.add_self_of_Y_eq
      simp [W, WeierstrassCurve.Affine.negY, h0]
    rw [this]
    exact rep_zero
  · rw [if_neg h0]
    have hy0 : (y : ZMod P) ≠ 0 := cast_ne_zero_of_pos hy h0
    have hne : (y : ZMod P) ≠ W.negY (x : ZMod P) (y : ZMod P) := by
      simp only [W, WeierstrassCurve.Affine.negY, zero_mul, sub_zero]
      intro h
      have : (2 : ZMod P) * (y : ZMod P) = 0 := by linear_combination h
      rcases mul_eq_zero.1 this with h | h
      · exact two_ne_zero_F h
      · exact hy0 h
    rw [Point.add_self_of_Y_ne hne]
    have hP : 0 < P := by decide
    have h2y : (2 : ZMod P) * (y : ZMod P) ≠ 0 := mul_ne_zero two_ne_zero_F hy0
    have hs : W.slope (x : ZMod P) (x : ZMod P) (y : ZMod P) (y : ZMod P) =
        (3 * (x : ZMod P) * (x : ZMod P) + -3) * (2 * (y : ZMod P))⁻¹ := by
      rw [WeierstrassCurve.Affine.slope_of_Y_ne rfl hne]
      simp only [W, WeierstrassCurve.Affine.negY]
      exact div_congr_helper (by ring) (by ring)
    dsimp only
    apply rep_some _ (Nat.mod_lt _ hP) (Nat.mod_lt _ hP)
    · rw [hs]
      simp only [WeierstrassCurve.Affine.addX, W]
      push_cast [ZMod.natCast_mod, fieldInv_cast, cast_P_sub P_pos, cast_P_sub hx.le]
      ring
    · rw [hs]
      simp only [WeierstrassCurve.Affine.addY, WeierstrassCurve.Affine.negAddY,
        WeierstrassCurve.Affine.addX, WeierstrassCurve.Affine.negY, W]
      rw [ZMod.natCast_mod]
      push_cast [ZMod.natCast_mod, fieldInv_cast, cast_P_sub P_pos, cast_P_sub hx.le,
        cast_P_sub hy.le, cast_P_sub (Nat.mod_lt _ hP).le]
      ring

theorem div_neg_helper {a b c d : ZMod P} (hb : b = -d) (ha : a = -c) :
    a / b = c * d⁻¹ := by
  rw [ha, hb, neg_div_neg_eq, div_eq_mul_inv]

theorem rep_add {p q : Nat × Nat} {Q R : W.Point} (hp : Rep p Q) (hq : Rep q R) :
    Rep (add p.1 p.2 q.1 q.2) (Q + R) := by
  have hP : 0 < P := by decide
  rcases hp with ⟨rfl, rfl⟩ | ⟨hx1, hy1, hn1, hQ⟩
  · rw [zero_add]
    unfold add
    rw [if_pos ⟨rfl, rfl⟩]
    exact hq
  have hp0 : ¬ (p.1 = 0 ∧ p.2 = 0) := by
    rintro ⟨h1, h2⟩
    have := (rep_zero_iff (Or.inr ⟨hx1, hy1, hn1, hQ⟩)).2 (Prod.ext h1 h2)
    rw [hQ] at this
    exact Point.some_ne_zero hn1 this
  rcases hq with ⟨rfl, rfl⟩ | ⟨hx2, hy2, hn2, hR⟩
  · rw [add_zero]
    unfold add
    rw [if_neg hp0, if_pos ⟨rfl, rfl⟩]
    exact Or.inr ⟨hx1, hy1, hn1, hQ⟩
  have hq0 : ¬ (q.1 = 0 ∧ q.2 = 0) := by
    rintro ⟨h1, h2⟩
    have := (rep_zero_iff (Or.inr ⟨hx2, hy2, hn2, hR⟩)).2 (Prod.ext h1 h2)
    rw [hR] at this
    exact Point.some_ne_zero hn2 this
  obtain ⟨x1, y1⟩ := p
  obtain ⟨x2, y2⟩ := q
  simp only at hx1 hy1 hn1 hQ hx2 hy2 hn2 hR hp0 hq0 ⊢
  subst hQ hR
  unfold add
  rw [if_neg hp0, if_neg hq0]
  by_cases hx : x1 = x2
  · subst hx
    rw [if_pos rfl]
    by_cases hy : y1 = y2
    · subst hy
      rw [if_pos rfl]
      exact rep_double hx1 hy1 hn1
    · rw [if_neg hy]
      have hyF : (y1 : ZMod P) ≠ (y2 : ZMod P) := fun h => hy (natCast_inj_of_lt hy1 hy2 h)
      have := (WeierstrassCurve.Affine.Y_eq_of_X_eq hn1.1 hn2.1 rfl).resolve_left hyF
      rw [Point.add_of_Y_eq rfl this]
      exact rep_zero
  · rw [if_neg hx]
    have hxF : (x1 : ZMod P) ≠ (x2 : ZMod P) := fun h => hx (natCast_inj_of_lt hx1 hx2 h)
    rw [Point.add_of_X_ne hxF]
    have hs : W.slope (x1 : ZMod P) (x2 : ZMod P) (y1 : ZMod P) (y2 : ZMod P) =
        ((y2 : ZMod P) + -(y1 : ZMod P)) * ((x2 : ZMod P) + -(x1 : ZMod P))⁻¹ := by
      rw [WeierstrassCurve.Affine.slope_of_X_ne hxF]
      exact div_neg_helper (by ring) (by ring)
    dsimp only
    apply rep_some _ (Nat.mod_lt _ hP) (Nat.mod_lt _ hP)
    · rw [hs]
      simp only [WeierstrassCurve.Affine.addX, W]
      push_cast [ZMod.natCast_mod, fieldInv_cast, cast_P_sub hx1.le, cast_P_sub hx2.le,
        cast_P_sub hy1.le]
      ring
    · rw [hs]
      simp only [WeierstrassCurve.Affine.addY, WeierstrassCurve.Affine.negAddY,
        WeierstrassCurve.Affine.addX, WeierstrassCurve.Affine.negY, W]
      rw [ZMod.natCast_mod]
      push_cast [ZMod.natCast_mod, fieldInv_cast, cast_P_sub hx1.le, cast_P_sub hx2.le,
        cast_P_sub hy1.le, cast_P_sub (Nat.mod_lt _ hP).le]
      ring

/-! ### Scalar multiplication -/

theorem rep_mulLoop {x y : Nat} {Q : W.Point} (hQ : Rep (x, y) Q) (k : Nat) :
    ∀ (i : Nat) (acc : Nat × Nat) (A : W.Point), Rep acc A →
      Rep (mulLoop x y k i acc) (2 ^ i • A + (k % 2 ^ i) • Q) := by
  intro i
  induction i with
  | zero =>
    intro acc A hA
    simpa [mulLoop, Nat.mod_one, zero_nsmul] using hA
  | succ i ih =>
    intro acc A hA
    unfold mulLoop
    dsimp only
    have hd : Rep (add acc.1 acc.2 acc.1 acc.2) (A + A) := rep_add hA hA
    have hstep : Rep (if testBit k i = true then
        add (add acc.1 acc.2 acc.1 acc.2).1 (add acc.1 acc.2 acc.1 acc.2).2 x y
        else add acc.1 acc.2 acc.1 acc.2) (A + A + (k / 2 ^ i % 2) • Q) := by
      by_cases hb : k / 2 ^ i % 2 = 1
      · have : testBit k i = true := by simp [testBit, hb]
        rw [if_pos this, hb, one_nsmul]
        exact rep_add hd hQ
      · have : testBit k i = false := by simp [testBit, hb]
        have h0 : k / 2 ^ i % 2 = 0 := by omega
        rw [this, h0, zero_nsmul, add_zero]
        simpa using hd
    have := ih _ _ hstep
    have e : 2 ^ i • (A + A + (k / 2 ^ i % 2) • Q) + (k % 2 ^ i) • Q =
        2 ^ (i + 1) • A + (k % 2 ^ (i + 1)) • Q := by
      rw [Nat.mod_pow_succ, pow_succ]
      simp only [nsmul_add, add_nsmul, mul_nsmul', two_nsmul]
      abel
    rwa [e] at this

theorem rep_scalarMul {p : Nat × Nat} {Q : W.Point} (hQ : Rep p Q) (k : Nat) :
    Rep (scalarMul p.1 p.2 k) ((k % 2 ^ 256) • Q) := by
  have := @rep_mulLoop p.1 p.2 Q hQ k 256 (0, 0) 0 rep_zero
  rwa [nsmul_zero, zero_add] at this

/-! ### The curve has no point of order two -/

theorem cubicPow_P : cubicPow P =
    (66434390973925144466073271287821796038003695194169110494110089305650096453661,
     12402202686218762177567235911775779164004716598278868847786114277539554646092,
     24678849118215552148312087830792888746041224110560601850711771001608500700145) := by
  decide!

theorem B_le_P : B ≤ P := by decide

theorem cubicEval_mul {r : ZMod P} (hr : r ^ 3 - 3 * r + (B : ZMod P) = 0)
    (s t : Nat × Nat × Nat) :
    cubicEval r (cubicMul s t) = cubicEval r s * cubicEval r t := by
  unfold cubicEval cubicMul
  dsimp only
  push_cast [ZMod.natCast_mod, cast_P_sub B_le_P]
  linear_combination (-((s.2.1 : ZMod P) * t.2.2 + s.2.2 * t.2.1) - s.2.2 * t.2.2 * r) * hr

theorem cubicPowAux_eval {r : ZMod P} (hr : r ^ 3 - 3 * r + (B : ZMod P) = 0) :
    ∀ (fuel : Nat) (b : Nat × Nat × Nat) (e : Nat) (acc : Nat × Nat × Nat), e < 2 ^ fuel →
      cubicEval r (cubicPowAux fuel b e acc) = cubicEval r acc * cubicEval r b ^ e := by
  intro fuel
  induction fuel with
  | zero =>
    intro b e acc he
    have : e = 0 := by simpa using he
    subst this
    simp [cubicPowAux]
  | succ f ih =>
    intro b e acc he
    unfold cubicPowAux
    by_cases h0 : e = 0
    · simp [h0]
    · rw [if_neg h0]
      have hlt : e / 2 < 2 ^ f := by
        rw [Nat.div_lt_iff_lt_mul (by norm_num)]
        rw [pow_succ] at he
        exact he
      rw [ih _ _ _ hlt, cubicEval_mul hr]
      rcases Nat.mod_two_eq_zero_or_one e with h | h
      · have he2 : e = 2 * (e / 2) := by omega
        rw [if_neg (by omega)]
        conv_rhs => rw [he2]
        rw [pow_mul, sq]
      · have he2 : e = 2 * (e / 2) + 1 := by omega
        rw [if_pos h, cubicEval_mul hr]
        conv_rhs => rw [he2]
        rw [pow_succ, pow_mul, sq]
        ring

theorem cubicPow_eval {r : ZMod P} (hr : r ^ 3 - 3 * r + (B : ZMod P) = 0) (e : Nat) :
    cubicEval r (cubicPow e) = r ^ e := by
  unfold cubicPow
  have h : e < 2 ^ (e + 1) := lt_trans (Nat.lt_succ_self e) (Nat.lt_two_pow (e + 1))
  rw [cubicPowAux_eval hr _ _ _ _ h]
  simp [cubicEval]

theorem cast_of_mod {n m : Nat} (h : n % P = m) : (n : ZMod P) = (m : ZMod P) := by
  rw [← h, ZMod.natCast_mod]

theorem cubic_no_root (r : ZMod P) : r ^ 3 - 3 * r + (B : ZMod P) ≠ 0 := by
  intro hr
  have hg : cubicEval r (cubicPow P) = r := by
    rw [cubicPow_eval hr, ZMod.pow_card]
  unfold cubicEval at hg
  have h0 : (bezoutU.1 * B + bezoutV.1 * (cubicPow P).1) % P = 1 := by
    rw [cubicPow_P]; decide
  have h1 : ((P - 3) * bezoutU.1 + bezoutU.2 * B + bezoutV.1 * ((cubicPow P).2.1 + (P - 1)) +
      bezoutV.2.1 * (cubicPow P).1) % P = 0 := by
    rw [cubicPow_P]; decide
  have h2 : ((P - 3) * bezoutU.2 + bezoutV.1 * (cubicPow P).2.2 +
      bezoutV.2.1 * ((cubicPow P).2.1 + (P - 1)) + bezoutV.2.2 * (cubicPow P).1) % P = 0 := by
    rw [cubicPow_P]; decide
  have h3 : (bezoutU.1 + bezoutV.2.1 * (cubicPow P).2.2 +
      bezoutV.2.2 * ((cubicPow P).2.1 + (P - 1))) % P = 0 := by
    rw [cubicPow_P]; decide
  have h4 : (bezoutU.2 + bezoutV.2.2 * (cubicPow P).2.2) % P = 0 := by
    rw [cubicPow_P]; decide
  have c0 := cast_of_mod h0
  have c1 := cast_of_mod h1
  have c2 := cast_of_mod h2
  have c3 := cast_of_mod h3
  have c4 := cast_of_mod h4
  have hP1 : (1 : Nat) ≤ P := by decide
  push_cast [cast_P_sub P_pos, cast_P_sub hP1] at c0 c1 c2 c3 c4
  have : (1 : ZMod P) = 0 := by
    linear_combination -(c0 + r * c1 + r ^ 2 * c2 + r ^ 3 * c3 + r ^ 4 * c4) +
      ((bezoutU.1 : ZMod P) + bezoutU.2 * r) * hr +
      ((bezoutV.1 : ZMod P) + bezoutV.2.1 * r + bezoutV.2.2 * r ^ 2) * hg
  exact one_ne_zero this

/-! ### The order of the group -/

@[instance] theorem P256.fact_prime_N : Fact (Nat.Prime N) := ⟨prime_N⟩

theorem ptCode_injective : Function.Injective ptCode := by
  intro Q R h
  cases Q with
  | zero =>
    cases R with
    | zero => rfl
    | some hR => simp [ptCode] at h
  | @some x y hQ =>
    cases R with
    | zero => simp [ptCode] at h
    | @some x' y' hR =>
      simp only [ptCode, Option.some.injEq, Prod.mk.injEq, decide_eq_decide] at h
      obtain ⟨hx, hb⟩ := h
      subst hx
      rcases WeierstrassCurve.Affine.Y_eq_of_X_eq hQ.1 hR.1 rfl with hy | hy
      · subst hy; rfl
      · have hneg : y = -y' := by
          simpa [WeierstrassCurve.Affine.negY, W] using hy
        have hy' : y = y' := by
          subst hneg
          rw [neg_neg] at hb
          have hle : (-y').val = y'.val := by
            rcases le_total (-y').val y'.val with h1 | h1
            · exact le_antisymm h1 (hb.1 h1)
            · exact le_antisymm (hb.2 h1) h1
          exact ZMod.val_injective P hle
        subst hy'
        rfl

@[instance] theorem P256.finite_point : Finite W.Point := Finite.of_injective ptCode ptCode_injective

theorem card_point_le : Nat.card W.Point ≤ 2 * P + 1 := by
  have h := Nat.card_le_card_of_injective ptCode ptCode_injective
  have h2 : Nat.card (Option (ZMod P × Bool)) = 2 * P + 1 := by
    rw [Nat.card_eq_fintype_card, Fintype.card_option, Fintype.card_prod, ZMod.card,
      Fintype.card_bool]
    ring
  rwa [h2] at h

theorem no_two_torsion (Q : W.Point) (h : Q + Q = 0) : Q = 0 := by
  cases Q with
  | zero => rfl
  | @some x y hQ =>
    exfalso
    by_cases hy : y = W.negY x y
    · have hy0 : y = 0 := by
        have h2 : (2 : ZMod P) * y = 0 := by
          have : y = -y := by simpa [WeierstrassCurve.Affine.negY, W] using hy
          linear_combination this
        rcases mul_eq_zero.1 h2 with h3 | h3
        · exact absurd h3 two_ne_zero_F
        · exact h3
      have he := (W_equation x y).1 hQ.1
      rw [hy0] at he
      apply cubic_no_root x
      linear_combination -he
    · rw [Point.add_self_of_Y_ne hy] at h
      exact Point.some_ne_zero _ h

theorem G_isOnCurve : IsOnCurve Gx Gy = true := by decide

theorem exists_G : ∃ G : W.Point, Rep (Gx, Gy) G ∧ G ≠ 0 := by
  obtain ⟨hn, hr⟩ := rep_of_isOnCurve G_isOnCurve
  exact ⟨_, hr, Point.some_ne_zero hn⟩

theorem scalarMul_N_G : scalarMul Gx Gy N = (0, 0) := by decide!

theorem N_lt : N < 2 ^ 256 := by decide

theorem N_nsmul_G {G : W.Point} (hG : Rep (Gx, Gy) G) : N • G = 0 := by
  have h := rep_scalarMul hG N
  rw [scalarMul_N_G, Nat.mod_eq_of_lt N_lt] at h
  exact (rep_zero_iff h).2 rfl

theorem card_point : Nat.card W.Point = N := by
  obtain ⟨G, hG, hG0⟩ := exists_G
  have hord : addOrderOf G = N := addOrderOf_eq_prime (N_nsmul_G hG) hG0
  have hdvd : N ∣ Nat.card W.Point := hord ▸ addOrderOf_dvd_natCard G
  obtain ⟨m, hm⟩ := hdvd
  have hpos : 0 < Nat.card W.Point := Nat.card_pos
  have hle := card_point_le
  have h3 : 2 * P + 1 < N * 3 := by decide
  have hm3 : m < 3 := by
    by_contra hc
    have : N * 3 ≤ N * m := Nat.mul_le_mul_left N (by omega)
    omega
  have hm0 : m ≠ 0 := by
    rintro rfl
    omega
  have hm2 : m ≠ 2 := by
    rintro rfl
    have h2 : 2 ∣ Nat.card W.Point := ⟨N, by rw [hm]; ring⟩
    obtain ⟨x, hx⟩ := exists_prime_addOrderOf_dvd_card' 2 h2
    have hxx : x + x = 0 := by
      have := addOrderOf_nsmul_eq_zero x
      rwa [hx, two_nsmul] at this
    have hx0 := no_two_torsion x hxx
    rw [hx0, addOrderOf_zero] at hx
    omega
  have : m = 1 := by omega
  rw [hm, this, mul_one]

theorem N_nsmul (Q : W.Point) : N • Q = 0 := by
  rw [← card_point]
  exact card_nsmul_eq_zero'

theorem mod_N_nsmul (k : Nat) (Q : W.Point) : (k % N) • Q = k • Q := by
  conv_rhs => rw [← Nat.div_add_mod k N]
  rw [add_nsmul, mul_nsmul, N_nsmul, nsmul_zero, zero_add]

theorem nsmul_eq_zero_iff {Q : W.Point} (hQ : Q ≠ 0) (k : Nat) : k • Q = 0 ↔ N ∣ k := by
  have hord : addOrderOf Q = N := addOrderOf_eq_prime (N_nsmul Q) hQ
  rw [← hord]
  exact addOrderOf_dvd_iff_nsmul_eq_zero.symm

/-! ### The curve methods -/

theorem rep_scalarMul_normalize {p : Nat × Nat} {Q : W.Point} (h : Rep p Q) (n : Nat) :
    Rep (scalarMul p.1 p.2 (normalizeScalar (big.Bytes n))) (n • Q) := by
  have hr := rep_scalarMul h (normalizeScalar (big.Bytes n))
  rw [normalizeScalar_bytes] at hr ⊢
  by_cases hn : n < 2 ^ 256
  · rw [if_pos hn] at hr ⊢
    rwa [Nat.mod_eq_of_lt hn] at hr
  · rw [if_neg hn] at hr ⊢
    have hlt : n % N < 2 ^ 256 := lt_trans (Nat.mod_lt _ (by decide)) N_lt
    rwa [Nat.mod_eq_of_lt hlt, mod_N_nsmul] at hr

theorem rep_scalarMul_fill {p : Nat × Nat} {Q : W.Point} (h : Rep p Q) {n : Nat}
    (hn : n < 2 ^ 256) :
    Rep (scalarMul p.1 p.2 (normalizeScalar (big.FillBytes32 n))) (n • Q) := by
  have hr := rep_scalarMul h n
  rw [normalizeScalar_fillBytes32 hn]
  rwa [Nat.mod_eq_of_lt hn] at hr

theorem scalarMult_eq {p : Nat × Nat} {Q : W.Point} (h : Rep p Q) (k : List Nat) :
    P256.ScalarMult p.1 p.2 k = some (scalarMul p.1 p.2 (normalizeScalar k)) := by
  unfold P256.ScalarMult
  rw [if_pos (rep_valid h)]

theorem add_eq {p q : Nat × Nat} {Q R : W.Point} (hp : Rep p Q) (hq : Rep q R) :
    P256.Add p.1 p.2 q.1 q.2 = some (add p.1 p.2 q.1 q.2) := by
  unfold P256.Add
  rw [if_pos (by rw [rep_valid hp, rep_valid hq]; rfl)]

theorem scalarMult_none {x y : Nat} (h : valid x y = false) (k : List Nat) :
    P256.ScalarMult x y k = none := by
  unfold P256.ScalarMult
  rw [h]
  rfl

theorem valid_of_scalarMult {x y : Nat} {k : List Nat} {S : Nat × Nat}
    (h : P256.ScalarMult x y k = some S) : valid x y = true := by
  unfold P256.ScalarMult at h
  by_contra hv
  rw [if_neg hv] at h
  exact Option.noConfusion h

theorem rep_scalarBaseMult_bytes {G : W.Point} (hG : Rep (Gx, Gy) G) (n : Nat) :
    Rep (P256.ScalarBaseMult (big.Bytes n)) (n • G) := by
  unfold P256.ScalarBaseMult
  exact rep_scalarMul_normalize hG n

theorem rep_scalarBaseMult_fill {G : W.Point} (hG : Rep (Gx, Gy) G) {n : Nat}
    (hn : n < 2 ^ 256) : Rep (P256.ScalarBaseMult (big.FillBytes32 n)) (n • G) := by
  unfold P256.ScalarBaseMult
  exact rep_scalarMul_fill hG hn

theorem nsmul_split (a1 a2 b : Nat) (Q : P256.W.Point) :
    b • ((a1 + a2) % P256.N) • Q = a1 • b • Q + a2 • b • Q := by
  rw [mod_N_nsmul, ← mul_nsmul, ← mul_nsmul, ← mul_nsmul, ← add_nsmul]
  congr 1
  ring

theorem nsmul_sum (a1 a2 : Nat) (Q : P256.W.Point) :
    a1 • Q + a2 • Q = ((a1 + a2) % P256.N) • Q := by
  rw [mod_N_nsmul, add_nsmul]

/-- The point `recoverSecret` adds up and the point it checks against are the same, for
every point the curve accepts and all scalars. -/
theorem recover_points_agree {x y : Nat} (hv : P256.valid x y = true) (a1 a2 : Nat) :
    ∃ R1 R2 S : Nat × Nat,
      P256.ScalarMult x y (big.Bytes a1) = some R1 ∧
      P256.ScalarMult x y (big.Bytes a2) = some R2 ∧
      P256.Add R1.1 R1.2 R2.1 R2.2 = some S ∧
      P256.ScalarMult x y (big.Bytes ((a1 + a2) % P256.N)) = some S := by
  obtain ⟨Q, hQ⟩ := rep_of_valid hv
  have hR1 := rep_scalarMul_normalize hQ a1
  have hR2 := rep_scalarMul_normalize hQ a2
  have hC := rep_scalarMul_normalize hQ ((a1 + a2) % P256.N)
  have hS := rep_add hR1 hR2
  rw [nsmul_sum] at hS
  refine ⟨_, _, _, scalarMult_eq hQ _, scalarMult_eq hQ _, add_eq hR1 hR2, ?_⟩
  rw [scalarMult_eq hQ, rep_coords_unique hS hC]

theorem valid_of_isOnCurve {x y : Nat} (h : P256.IsOnCurve x y = true) :
    P256.valid x y = true := by
  unfold P256.valid
  rw [h, Bool.or_true]

/-! ### Files and random draws -/

theorem hextable_mem : ∀ d, d < 16 → hex.hextable.getD d 0 ∈ hex.hextable := by decide

theorem encode_mem_hextable (bs : List Nat) (h : ∀ b ∈ bs, b < 256) :
    ∀ c ∈ hex.EncodeToString bs, c ∈ hex.hextable := by
  induction bs with
  | nil => intro c hc; simp [hex.EncodeToString] at hc
  | cons v rest ih =>
    have hv : v < 256 := h v (List.mem_cons_self _ _)
    have hr : ∀ b ∈ rest, b < 256 := fun b hb => h b (List.mem_cons_of_mem _ hb)
    intro c hc
    simp only [hex.EncodeToString, List.mem_cons] at hc
    rcases hc with rfl | rfl | hc
    · exact hextable_mem _ (by omega)
    · exact hextable_mem _ (Nat.mod_lt _ (by norm_num))
    · exact ih hr c hc

theorem loadScalar_written (s : Nat) (fs : FS) (filename : String) :
    loadScalar ((filename, FileData.raw (hex.EncodeToString (big.Bytes s))) :: fs) filename =
      .ok s := by
  simp only [loadScalar, os.ReadFile, List.lookup, beq_self_eq_true, fileBytes,
    decode_encode _ (bytes_lt s), setBytes_bytes]

theorem intLoop_lt (bitLen max : Nat) : ∀ (reader : List Nat) (a : Nat) (r : List Nat),
    rand.intLoop bitLen max reader = some (a, r) → a < max := by
  intro reader
  induction reader with
  | nil => intro a r h; simp [rand.intLoop] at h
  | cons c rest ih =>
    intro a r h
    unfold rand.intLoop at h
    split at h
    · simp only [Option.some.injEq, Prod.mk.injEq] at h
      omega
    · exact ih a r h

theorem randInt_lt {reader : List Nat} {max a : Nat} {r : List Nat} (hmax : 0 < max)
    (h : rand.Int reader max = some (a, r)) : a < max := by
  unfold rand.Int at h
  dsimp only at h
  split at h
  · simp only [Option.some.injEq, Prod.mk.injEq] at h
    obtain ⟨rfl, -⟩ := h
    exact hmax
  · exact intLoop_lt _ _ _ _ _ h

theorem N_pos : 0 < P256.N := lt_of_lt_of_le (by norm_num) (by decide : 1 ≤ P256.N)

theorem generateOn_ok (curve : elliptic.Curve) (reader r1 r2 : List Nat) (a1 a2 : Nat)
    (pubKeyFile chuckShareFile aliceShareFile : String) (w1 w2 w3 : WriteEnv) (fs : FS)
    (hd1 : rand.Int reader curve.Params.N = some (a1, r1))
    (hd2 : rand.Int r1 curve.Params.N = some (a2, r2))
    (h : (generateOn curve [pubKeyFile, chuckShareFile, aliceShareFile] reader w1 w2 w3
      fs).exit = Exit.ok) :
    (generateOn curve [pubKeyFile, chuckShareFile, aliceShareFile] reader w1 w2 w3 fs).fs =
      (aliceShareFile, FileData.raw (hex.EncodeToString (big.Bytes a1))) ::
      (chuckShareFile, FileData.raw (hex.EncodeToString (big.Bytes a2))) ::
      (pubKeyFile, FileData.pem ⟨"PUBLIC KEY", Der.ecPoint curve.Params
        (curve.ScalarBaseMult (big.Bytes ((a1 + a2) % curve.Params.N))).1
        (curve.ScalarBaseMult (big.Bytes ((a1 + a2) % curve.Params.N))).2⟩) :: fs := by
  revert h
  simp only [generateOn, hd1, hd2, savePublicKey, x509.MarshalPKIXPublicKey, saveScalar,
    os.WriteFile, os.Create, pem.Encode, os.File.Write]
  generalize curve.ScalarBaseMult (big.Bytes ((a1 + a2) % curve.Params.N)) = PK
  cases hc : curve.Params.IsOnCurve PK.1 PK.2 <;>
    cases w1 <;> cases w2 <;> cases w3 <;> simp

/-! ### Runs of the program -/

theorem savePublicKey_cases (w : WriteEnv) (fs : FS) (filename : String)
    (key : ecdsa.PublicKey) :
    (∃ e, savePublicKey w fs filename key = (fs, some e)) ∨
    (∃ left e, w = WriteEnv.writeFails left ∧
      savePublicKey w fs filename key = ((filename, left) :: fs, some e)) ∨
    (∃ d, w = WriteEnv.ok ∧ savePublicKey w fs filename key = ((filename, d) :: fs, none)) := by
  unfold savePublicKey x509.MarshalPKIXPublicKey os.Create pem.Encode os.File.Write
  cases key.Curve.IsOnCurve key.X key.Y <;> cases w <;> simp

theorem writeFile_cases (w : WriteEnv) (fs : FS) (filename : String) (d : FileData) :
    (w = WriteEnv.openFails ∧ ∃ e, os.WriteFile w fs filename d = (fs, some e)) ∨
    (∃ left e, w = WriteEnv.writeFails left ∧
      os.WriteFile w fs filename d = ((filename, left) :: fs, some e)) ∨
    (w = WriteEnv.ok ∧ os.WriteFile w fs filename d = ((filename, d) :: fs, none)) := by
  unfold os.WriteFile os.Create os.File.Write
  cases w <;> simp

theorem sendOn_write_cases (curve : elliptic.Curve) (args : List String)
    (reader : List Nat) (w1 : WriteEnv) (fs : FS) :
    ((sendOn curve args reader w1 fs).exit = Exit.ok ∧ w1 = WriteEnv.ok ∧
      ∃ name d, (sendOn curve args reader w1 fs).fs = (name, d) :: fs) ∨
    ((sendOn curve args reader w1 fs).exit ≠ Exit.ok ∧
      ((sendOn curve args reader w1 fs).fs = fs ∨
       ∃ name left, w1 = WriteEnv.writeFails left ∧
         (sendOn curve args reader w1 fs).fs = (name, left) :: fs)) := by
  unfold sendOn
  split
  · rename_i inp outp
    split
    · simp
    · simp
    · split
      · simp
      · split
        · simp
        · rename_i sx sy _
          simp only [isNil, Bool.or_self, Bool.false_eq_true, if_false]
          rcases savePublicKey_cases w1 fs outp ⟨curve.Params, _, _⟩ with
            ⟨e, he⟩ | ⟨left, e, hw, he⟩ | ⟨d, hw, hd⟩
          · rw [he]; simp
          · rw [he]; right; exact ⟨by simp, Or.inr ⟨outp, left, hw, rfl⟩⟩
          · rw [hd]; left; exact ⟨rfl, hw, outp, d, rfl⟩
  · simp

theorem recoverSecretOn_write_cases (curve : elliptic.Curve) (args : List String)
    (w1 : WriteEnv) (fs : FS) :
    ((recoverSecretOn curve args w1 fs).exit = Exit.ok ∧ w1 = WriteEnv.ok ∧
      ∃ name d, (recoverSecretOn curve args w1 fs).fs = (name, d) :: fs) ∨
    ((recoverSecretOn curve args w1 fs).exit ≠ Exit.ok ∧
      ((recoverSecretOn curve args w1 fs).fs = fs ∨
       ∃ name left, w1 = WriteEnv.writeFails left ∧
         (recoverSecretOn curve args w1 fs).fs = (name, left) :: fs)) := by
  unfold recoverSecretOn
  split
  · rename_i eph chuck alice outf
    cases hk : loadPublicKey fs eph with
    | panic => simp
    | error e => simp
    | key E =>
      cases hs2 : loadScalar fs chuck with
      | error e => simp
      | ok a2 =>
        cases hs1 : loadScalar fs alice with
        | error e => simp
        | ok a1 =>
          cases e1 : curve.ScalarMult E.X E.Y (big.Bytes a1) with
          | none => simp [e1]
          | some R1 =>
            cases e2 : curve.ScalarMult E.X E.Y (big.Bytes a2) with
            | none => simp [e1, e2]
            | some R2 =>
              cases e3 : curve.Add R1.1 R1.2 R2.1 R2.2 with
              | none => simp [e1, e2, e3]
              | some S =>
                cases e4 : curve.ScalarMult E.X E.Y
                    (big.Bytes ((a1 + a2) % curve.Params.N)) with
                | none => simp [e1, e2, e3, e4]
                | some C =>
                  simp only [e1, e2, e3, e4]
                  split
                  · simp
                  · rcases writeFile_cases w1 fs outf
                      (FileData.raw (hex.EncodeToString (big.Bytes S.1))) with
                      ⟨hw, e, he⟩ | ⟨left, e, hw, he⟩ | ⟨hw, hd⟩
                    · simp only [he]; simp
                    · simp only [he]; right; exact ⟨by simp, Or.inr ⟨outf, left, hw, rfl⟩⟩
                    · simp only [hd]; left; exact ⟨by simp, hw, outf, _, rfl⟩
  · simp

theorem generateOn_write_order (curve : elliptic.Curve) (pub chuck alice : String)
    (reader : List Nat) (w1 w2 w3 : WriteEnv) (fs : FS) :
    ((generateOn curve [pub, chuck, alice] reader w1 w2 w3 fs).exit = Exit.ok ∧
      w1 = WriteEnv.ok ∧ w2 = WriteEnv.ok ∧ w3 = WriteEnv.ok ∧
      ∃ d1 d2 d3, (generateOn curve [pub, chuck, alice] reader w1 w2 w3 fs).fs =
          (alice, d3) :: (chuck, d2) :: (pub, d1) :: fs) ∨
    ((generateOn curve [pub, chuck, alice] reader w1 w2 w3 fs).exit ≠ Exit.ok ∧
      ((generateOn curve [pub, chuck, alice] reader w1 w2 w3 fs).fs = fs ∨
       (∃ left, w1 = WriteEnv.writeFails left ∧
          (generateOn curve [pub, chuck, alice] reader w1 w2 w3 fs).fs = (pub, left) :: fs) ∨
       (w2 = WriteEnv.openFails ∧ ∃ d1,
          (generateOn curve [pub, chuck, alice] reader w1 w2 w3 fs).fs = (pub, d1) :: fs) ∨
       (∃ left d1, w2 = WriteEnv.writeFails left ∧
          (generateOn curve [pub, chuck, alice] reader w1 w2 w3 fs).fs =
            (chuck, left) :: (pub, d1) :: fs) ∨
       (w3 = WriteEnv.openFails ∧ ∃ d1 d2,
          (generateOn curve [pub, chuck, alice] reader w1 w2 w3 fs).fs =
            (chuck, d2) :: (pub, d1) :: fs) ∨
       (∃ left d1 d2, w3 = WriteEnv.writeFails left ∧
          (generateOn curve [pub, chuck, alice] reader w1 w2 w3 fs).fs =
            (alice, left) :: (chuck, d2) :: (pub, d1) :: fs))) := by
  unfold generateOn
  dsimp only
  cases hd1 : rand.Int reader curve.Params.N with
  | none => simp
  | some d1 =>
    obtain ⟨a1, r1⟩ := d1
    cases hd2 : rand.Int r1 curve.Params.N with
    | none => simp [hd2]
    | some d2 =>
      obtain ⟨a2, r2⟩ := d2
      simp only [hd2]
      rcases savePublicKey_cases w1 fs pub ⟨curve.Params,
        (curve.ScalarBaseMult (big.Bytes ((a1 + a2) % curve.Params.N))).1,
        (curve.ScalarBaseMult (big.Bytes ((a1 + a2) % curve.Params.N))).2⟩ with
        ⟨e, he⟩ | ⟨left, e, hw, he⟩ | ⟨d, hw, hd⟩
      · rw [he]; simp
      · right
        exact ⟨by simp [he], Or.inr (Or.inl ⟨left, hw, by simp [he]⟩)⟩
      · rcases writeFile_cases w2 ((pub, d) :: fs) chuck
            (FileData.raw (hex.EncodeToString (big.Bytes a2))) with
          ⟨hw2, e, h2⟩ | ⟨left, e, hw2, h2⟩ | ⟨hw2, h2⟩
        · right
          exact ⟨by simp [saveScalar, hd, h2],
            Or.inr (Or.inr (Or.inl ⟨hw2, d, by simp [saveScalar, hd, h2]⟩))⟩
        · right
          exact ⟨by simp [saveScalar, hd, h2],
            Or.inr (Or.inr (Or.inr (Or.inl ⟨left, d, hw2, by simp [saveScalar, hd, h2]⟩)))⟩
        · rcases writeFile_cases w3 ((chuck, FileData.raw (hex.EncodeToString (big.Bytes a2))) ::
              (pub, d) :: fs) alice (FileData.raw (hex.EncodeToString (big.Bytes a1))) with
            ⟨hw3, e, h3⟩ | ⟨left, e, hw3, h3⟩ | ⟨hw3, h3⟩
          · right
            exact ⟨by simp [saveScalar, hd, h2, h3],
              Or.inr (Or.inr (Or.inr (Or.inr (Or.inl ⟨hw3, d,
                FileData.raw (hex.EncodeToString (big.Bytes a2)),
                by simp [saveScalar, hd, h2, h3]⟩))))⟩
          · right
            exact ⟨by simp [saveScalar, hd, h2, h3],
              Or.inr (Or.inr (Or.inr (Or.inr (Or.inr ⟨left, d,
                FileData.raw (hex.EncodeToString (big.Bytes a2)), hw3,
                by simp [saveScalar, hd, h2, h3]⟩))))⟩
          · left
            exact ⟨by simp [saveScalar, hd, h2, h3], hw, hw2, hw3, d,
              FileData.raw (hex.EncodeToString (big.Bytes a2)),
              FileData.raw (hex.EncodeToString (big.Bytes a1)),
              by simp [saveScalar, hd, h2, h3]⟩

theorem loadPublicKey_key {fs : FS} {name : String} {k : ecdsa.PublicKey}
    (h : loadPublicKey fs name = Loaded.key k) : k.Curve.IsOnCurve k.X k.Y = true := by
  unfold loadPublicKey at h
  cases hr : os.ReadFile fs name with
  | error e => simp [hr] at h
  | ok data =>
    cases hd : pem.Decode data with
    | none => simp [hr, hd] at h
    | some block =>
      cases hb : block.Bytes with
      | ecPoint c x y =>
        simp only [hr, hd, hb, x509.ParsePKIXPublicKey] at h
        by_cases hc : c.IsOnCurve x y = true
        · simp only [hc, if_true, Loaded.key.injEq] at h
          subst h
          exact hc
        · simp [hc] at h
      | ecBadPoint c => simp [hr, hd, hb, x509.ParsePKIXPublicKey] at h
      | otherKey a => simp [hr, hd, hb, x509.ParsePKIXPublicKey] at h
      | garbage => simp [hr, hd, hb, x509.ParsePKIXPublicKey] at h

theorem isOnCurve_not_zero {c : elliptic.CurveParams} {x y : Nat}
    (h : c.IsOnCurve x y = true) : ¬ (x = 0 ∧ y = 0) := by
  unfold elliptic.CurveParams.IsOnCurve at h
  simp only [Bool.and_eq_true, Bool.not_eq_true', Bool.and_eq_false_imp, beq_iff_eq,
    beq_eq_false_iff_ne, ne_eq] at h
  rintro ⟨hx, hy⟩
  exact h.1.1.1 hx hy

theorem loaded_not_valid {fs : FS} {name : String} {k : ecdsa.PublicKey}
    (h : loadPublicKey fs name = Loaded.key k) (hn : P256.IsOnCurve k.X k.Y = false) :
    P256.valid k.X k.Y = false := by
  have h0 := isOnCurve_not_zero (loadPublicKey_key h)
  unfold P256.valid
  rw [hn, Bool.or_false]
  by_contra hc
  simp only [Bool.not_eq_false, Bool.and_eq_true, beq_iff_eq] at hc
  exact h0 hc

theorem generateKey_spec (curve : elliptic.Curve) :
    ∀ (reader : List Nat) {b : List Nat} {x y : Nat} {r : List Nat},
    elliptic.GenerateKey curve reader = some (b, x, y, r) →
    ∃ priv, priv < curve.Params.N ∧ b = big.FillBytes32 priv ∧
      (x, y) = curve.ScalarBaseMult (big.FillBytes32 priv) := by
  intro reader
  induction reader with
  | nil => intro b x y r h; simp [elliptic.GenerateKey] at h
  | cons c rest ih =>
    intro b x y r h
    unfold elliptic.GenerateKey at h
    dsimp only at h
    split at h
    · exact ih h
    · rename_i hlt
      simp only [Option.some.injEq, Prod.mk.injEq] at h
      obtain ⟨hb, hx, hy, -⟩ := h
      refine ⟨_, not_le.1 hlt, hb.symm, ?_⟩
      rw [← hx, ← hy]

theorem P256_scalarBaseMult : elliptic.P256.ScalarBaseMult = P256.ScalarBaseMult := by
  simp only [elliptic.P256]

theorem P256_scalarMult : elliptic.P256.ScalarMult = P256.ScalarMult := by
  simp only [elliptic.P256]

theorem P256_params : elliptic.P256.Params = P256.params := by
  simp only [elliptic.P256]

theorem P256_params_N : elliptic.P256.Params.N = P256.N := by
  simp only [elliptic.P256, P256.params]

theorem generateOn_invalid (curve : elliptic.Curve) (reader r1 r2 : List Nat) (a1 a2 : Nat)
    (pub chuck alice : String) (w1 w2 w3 : WriteEnv) (fs : FS)
    (hd1 : rand.Int reader curve.Params.N = some (a1, r1))
    (hd2 : rand.Int r1 curve.Params.N = some (a2, r2))
    (hinv : curve.Params.IsOnCurve
      (curve.ScalarBaseMult (big.Bytes ((a1 + a2) % curve.Params.N))).1
      (curve.ScalarBaseMult (big.Bytes ((a1 + a2) % curve.Params.N))).2 = false) :
    generateOn curve [pub, chuck, alice] reader w1 w2 w3 fs =
      ⟨fs, ["Error saving public key: x509: invalid elliptic curve public key"],
        Exit.exit1⟩ := by
  simp only [generateOn, hd1, hd2, savePublicKey, x509.MarshalPKIXPublicKey, hinv]
  rfl

theorem sendOn_ephemeral_invalid (curve : elliptic.Curve) (fs : FS) (inp outp : String)
    (reader r : List Nat) (w1 : WriteEnv) (dest : ecdsa.PublicKey) (b : List Nat) (x y : Nat)
    (S : Nat × Nat)
    (hk : loadPublicKey fs inp = Loaded.key dest)
    (hg : elliptic.GenerateKey curve reader = some (b, x, y, r))
    (hS : curve.ScalarMult dest.X dest.Y b = some S)
    (hinv : curve.Params.IsOnCurve x y = false) :
    sendOn curve [inp, outp] reader w1 fs =
      ⟨fs, ["Error saving ephemeral public key: x509: invalid elliptic curve public key"],
        Exit.exit1⟩ := by
  simp only [sendOn, hk, hg, hS, isNil, savePublicKey, x509.MarshalPKIXPublicKey, hinv]
  rfl

theorem sendOn_not_valid (curve : elliptic.Curve) (fs : FS) (inp outp : String)
    (reader : List Nat) (w1 : WriteEnv)
    (h : ∀ k, loadPublicKey fs inp = Loaded.key k → ∀ b, curve.ScalarMult k.X k.Y b = none) :
    (sendOn curve [inp, outp] reader w1 fs).fs = fs ∧
      (sendOn curve [inp, outp] reader w1 fs).exit ≠ Exit.ok := by
  unfold sendOn
  dsimp only
  cases hk : loadPublicKey fs inp with
  | panic => simp
  | error e => simp
  | key k =>
    cases hg : elliptic.GenerateKey curve reader with
    | none => simp
    | some g =>
      obtain ⟨b, x, y, r⟩ := g
      simp [h k hk b]

theorem recoverSecretOn_not_valid (curve : elliptic.Curve) (fs : FS)
    (eph chuck alice outf : String) (w1 : WriteEnv)
    (h : ∀ k, loadPublicKey fs eph = Loaded.key k → ∀ b, curve.ScalarMult k.X k.Y b = none) :
    (recoverSecretOn curve [eph, chuck, alice, outf] w1 fs).fs = fs ∧
      (recoverSecretOn curve [eph, chuck, alice, outf] w1 fs).exit ≠ Exit.ok := by
  unfold recoverSecretOn
  dsimp only
  cases hk : loadPublicKey fs eph with
  | panic => simp
  | error e => simp
  | key k =>
    cases hs2 : loadScalar fs chuck with
    | error e => simp
    | ok a2 =>
      cases hs1 : loadScalar fs alice with
      | error e => simp
      | ok a1 => simp [h k hk]

theorem isOnCurve_zero_false : P256.params.IsOnCurve 0 0 = false := by decide

theorem lookup_skip (fs : FS) (name other : String) (d : FileData) (h : name ≠ other) :
    List.lookup name ((other, d) :: fs) = List.lookup name fs := by
  have hb : (name == other) = false := by simpa using h
  simp only [List.lookup, hb]

theorem loadPublicKey_skip (fs : FS) (name other : String) (d : FileData)
    (h : name ≠ other) : loadPublicKey ((other, d) :: fs) name = loadPublicKey fs name := by
  simp only [loadPublicKey, os.ReadFile, lookup_skip fs name other d h]

theorem loadScalar_skip (fs : FS) (name other : String) (d : FileData)
    (h : name ≠ other) : loadScalar ((other, d) :: fs) name = loadScalar fs name := by
  simp only [loadScalar, os.ReadFile, lookup_skip fs name other d h]

theorem loadPublicKey_written (fs : FS) (name blockType : String) (c : elliptic.CurveParams)
    (x y : Nat) (h : c.IsOnCurve x y = true) :
    loadPublicKey ((name, FileData.pem ⟨blockType, Der.ecPoint c x y⟩) :: fs) name =
      Loaded.key ⟨c, x, y⟩ := by
  simp [loadPublicKey, os.ReadFile, List.lookup, pem.Decode, x509.ParsePKIXPublicKey, h]

theorem generateOn_success (curve : elliptic.Curve) (reader r1 r2 : List Nat) (a1 a2 : Nat)
    (pub chuck alice : String) (fs : FS)
    (hd1 : rand.Int reader curve.Params.N = some (a1, r1))
    (hd2 : rand.Int r1 curve.Params.N = some (a2, r2))
    (hon : curve.Params.IsOnCurve
      (curve.ScalarBaseMult (big.Bytes ((a1 + a2) % curve.Params.N))).1
      (curve.ScalarBaseMult (big.Bytes ((a1 + a2) % curve.Params.N))).2 = true) :
    generateOn curve [pub, chuck, alice] reader WriteEnv.ok WriteEnv.ok WriteEnv.ok fs =
      ⟨(alice, FileData.raw (hex.EncodeToString (big.Bytes a1))) ::
        (chuck, FileData.raw (hex.EncodeToString (big.Bytes a2))) ::
        (pub, FileData.pem ⟨"PUBLIC KEY", Der.ecPoint curve.Params
          (curve.ScalarBaseMult (big.Bytes ((a1 + a2) % curve.Params.N))).1
          (curve.ScalarBaseMult (big.Bytes ((a1 + a2) % curve.Params.N))).2⟩) :: fs,
        ["Key generation complete."], Exit.ok⟩ := by
  simp only [generateOn, hd1, hd2, savePublicKey, x509.MarshalPKIXPublicKey, hon, saveScalar,
    os.WriteFile, os.Create, pem.Encode, os.File.Write, if_true]

theorem sendOn_success (curve : elliptic.Curve) (fs : FS) (inp outp : String)
    (reader r : List Nat) (dest : ecdsa.PublicKey) (b : List Nat) (x y : Nat) (S : Nat × Nat)
    (hk : loadPublicKey fs inp = Loaded.key dest)
    (hg : elliptic.GenerateKey curve reader = some (b, x, y, r))
    (hS : curve.ScalarMult dest.X dest.Y b = some S)
    (hon : curve.Params.IsOnCurve x y = true) :
    sendOn curve [inp, outp] reader WriteEnv.ok fs =
      ⟨(outp, FileData.pem ⟨"PUBLIC KEY", Der.ecPoint curve.Params x y⟩) :: fs,
        ["Sender Shared Secret (x-coord): " ++ fmt.text (fmt.sbx (big.Bytes S.1))],
        Exit.ok⟩ := by
  simp only [sendOn, hk, hg, hS, isNil, savePublicKey, x509.MarshalPKIXPublicKey, hon,
    os.Create, pem.Encode, os.File.Write, if_true, Bool.or_self, Bool.false_eq_true, if_false]

theorem recoverSecretOn_success (curve : elliptic.Curve) (fs : FS)
    (eph chuck alice outf : String) (E : ecdsa.PublicKey) (a1 a2 : Nat) (R1 R2 S : Nat × Nat)
    (hk : loadPublicKey fs eph = Loaded.key E)
    (hs2 : loadScalar fs chuck = .ok a2) (hs1 : loadScalar fs alice = .ok a1)
    (e1 : curve.ScalarMult E.X E.Y (big.Bytes a1) = some R1)
    (e2 : curve.ScalarMult E.X E.Y (big.Bytes a2) = some R2)
    (e3 : curve.Add R1.1 R1.2 R2.1 R2.2 = some S)
    (e4 : curve.ScalarMult E.X E.Y (big.Bytes ((a1 + a2) % curve.Params.N)) = some S) :
    recoverSecretOn curve [eph, chuck, alice, outf] WriteEnv.ok fs =
      ⟨(outf, FileData.raw (hex.EncodeToString (big.Bytes S.1))) :: fs,
        ["Verification successful: Recovered secret matches direct computation.",
         "Recovered Shared Secret (x-coord): " ++ fmt.text (fmt.sbx (big.Bytes S.1))],
        Exit.ok⟩ := by
  simp only [recoverSecretOn, hk, hs2, hs1, e1, e2, e3, e4, os.WriteFile, os.Create,
    os.File.Write, ne_eq, not_true_eq_false, or_self, if_false, if_true]

theorem P256_add : elliptic.P256.Add = P256.Add := by
  simp only [elliptic.P256]

theorem isOnCurve_of_rep_ne_zero {p : Nat × Nat} {Q : P256.W.Point} (h : Rep p Q)
    (h0 : Q ≠ 0) : P256.params.IsOnCurve p.1 p.2 = true := by
  rcases rep_cases h with ⟨_, hz⟩ | ⟨hon, _⟩
  · exact absurd hz h0
  · exact hon

theorem nsmul_ne_zero_of_lt {Q : P256.W.Point} (hQ : Q ≠ 0) {k : Nat} (hk : k ≠ 0)
    (hlt : k < P256.N) : k • Q ≠ 0 := by
  intro h
  exact hk (Nat.eq_zero_of_dvd_of_lt ((nsmul_eq_zero_iff hQ k).1 h) hlt)

theorem generateOn_ok_draws (curve : elliptic.Curve) (pub chuck alice : String)
    (reader : List Nat) (w1 w2 w3 : WriteEnv) (fs : FS)
    (h : (generateOn curve [pub, chuck, alice] reader w1 w2 w3 fs).exit = Exit.ok) :
    ∃ (a1 a2 : Nat) (r1 r2 : List Nat), rand.Int reader curve.Params.N = some (a1, r1) ∧
      rand.Int r1 curve.Params.N = some (a2, r2) := by
  unfold generateOn at h
  dsimp only at h
  cases hd1 : rand.Int reader curve.Params.N with
  | none => simp [hd1] at h
  | some d1 =>
    obtain ⟨a1, r1⟩ := d1
    cases hd2 : rand.Int r1 curve.Params.N with
    | none => simp [hd1, hd2] at h
    | some d2 =>
      obtain ⟨a2, r2⟩ := d2
      exact ⟨a1, a2, r1, r2, rfl, hd2⟩

theorem sendOn_ok_scalar (curve : elliptic.Curve) (inp outp : String) (reader : List Nat)
    (w1 : WriteEnv) (fs : FS)
    (h : (sendOn curve [inp, outp] reader w1 fs).exit = Exit.ok) :
    ∃ (dest : ecdsa.PublicKey) (b : Nat) (S : Nat × Nat),
      loadPublicKey fs inp = Loaded.key dest ∧ b < curve.Params.N ∧
      curve.ScalarMult dest.X dest.Y (big.FillBytes32 b) = some S ∧
      (sendOn curve [inp, outp] reader w1 fs).out =
        ["Sender Shared Secret (x-coord): " ++ fmt.text (fmt.sbx (big.Bytes S.1))] := by
  unfold sendOn at h ⊢
  dsimp only at h ⊢
  cases hk : loadPublicKey fs inp with
  | panic => simp [hk] at h
  | error e => simp [hk] at h
  | key dest =>
    cases hg : elliptic.GenerateKey curve reader with
    | none => simp [hk, hg] at h
    | some g =>
      obtain ⟨b, x, y, r⟩ := g
      obtain ⟨priv, hpriv, hb, -⟩ := generateKey_spec curve reader hg
      cases hS : curve.ScalarMult dest.X dest.Y b with
      | none => simp [hk, hg, hS] at h
      | some S =>
        simp only [hk, hg, hS, isNil, Bool.or_self, Bool.false_eq_true, if_false] at h ⊢
        rcases savePublicKey_cases w1 fs outp ⟨curve.Params, x, y⟩ with
          ⟨e, he⟩ | ⟨left, e, hw, he⟩ | ⟨d, hw, hd⟩
        · simp [he] at h
        · simp [he] at h
        · refine ⟨dest, priv, S, rfl, hpriv, ?_, ?_⟩
          · rw [← hb]; exact hS
          · simp only [hd]

theorem recoverSecretOn_run (curve : elliptic.Curve) (fs : FS)
    (eph chuck alice outf : String) (E : ecdsa.PublicKey) (a1 a2 : Nat)
    (R1 R2 S C : Nat × Nat)
    (hk : loadPublicKey fs eph = Loaded.key E)
    (hs2 : loadScalar fs chuck = .ok a2) (hs1 : loadScalar fs alice = .ok a1)
    (e1 : curve.ScalarMult E.X E.Y (big.Bytes a1) = some R1)
    (e2 : curve.ScalarMult E.X E.Y (big.Bytes a2) = some R2)
    (e3 : curve.Add R1.1 R1.2 R2.1 R2.2 = some S)
    (e4 : curve.ScalarMult E.X E.Y (big.Bytes ((a1 + a2) % curve.Params.N)) = some C) :
    recoverSecretOn curve [eph, chuck, alice, outf] WriteEnv.ok fs =
      if S.1 ≠ C.1 ∨ S.2 ≠ C.2 then
        ⟨fs, ["Error: Recovered secret does not match direct computation!"], Exit.exit1⟩
      else
        ⟨(outf, FileData.raw (hex.EncodeToString (big.Bytes S.1))) :: fs,
          ["Verification successful: Recovered secret matches direct computation.",
           "Recovered Shared Secret (x-coord): " ++ fmt.text (fmt.sbx (big.Bytes S.1))],
          Exit.ok⟩ := by
  simp only [recoverSecretOn, hk, hs2, hs1, e1, e2, e3, e4, os.WriteFile, os.Create,
    os.File.Write]

/-! ## The claims -/

/-- C1 (session consistency). Let `generate` draw the shares `a1`, `a2` and `send` draw the
ephemeral key pair `(b, E)` with `b ≠ 0`; the draws lie in `[0, N)` and `b` in `[1, N)`. With
`PublicKey` the point `generate` computes from `(a1 + a2) mod N`, the point `b·PublicKey` of
`send` and the point `a1·E + a2·E` of `recoverSecret` are computed, have the same
x-coordinate, and `%x` of its bytes is the text `hex.EncodeToString` gives for them. On whole
runs, all writes carried out and the share files different from each other, from the public
key file and from the ephemeral key file: when `(a1 + a2) mod N ≠ 0`, `generate`, then `send`
on the public key file written, then `recoverSecret` on the ephemeral key file and the share
files written all end successfully, and the secret `send` prints is the text `recoverSecret`
prints and writes to its output file; when `(a1 + a2) mod N = 0`, `generate` writes no key
and there is no session. -/
theorem session_consistency (fs : FS) (pub chuck alice eph outf : String)
    (reader1 r1 r2 reader2 r3 : List Nat) (a1 a2 : Nat) (b : List Nat) (x y : Nat)
    (hd1 : rand.Int reader1 P256.N = some (a1, r1))
    (hd2 : rand.Int r1 P256.N = some (a2, r2))
    (hg : elliptic.GenerateKey elliptic.P256 reader2 = some (b, x, y, r3))
    (hb : big.SetBytes b ≠ 0)
    (hpc : pub ≠ chuck) (hpa : pub ≠ alice) (hca : chuck ≠ alice)
    (hec : eph ≠ chuck) (hea : eph ≠ alice) :
    (a1 < P256.N ∧ a2 < P256.N ∧ 1 ≤ big.SetBytes b ∧ big.SetBytes b < P256.N) ∧
    (∃ S R1 R2 R : Nat × Nat,
      P256.ScalarMult (P256.ScalarBaseMult (big.Bytes ((a1 + a2) % P256.N))).1
        (P256.ScalarBaseMult (big.Bytes ((a1 + a2) % P256.N))).2 b = some S ∧
      P256.ScalarMult x y (big.Bytes a1) = some R1 ∧
      P256.ScalarMult x y (big.Bytes a2) = some R2 ∧
      P256.Add R1.1 R1.2 R2.1 R2.2 = some R ∧
      S.1 = R.1 ∧
      fmt.sbx (big.Bytes S.1) = hex.EncodeToString (big.Bytes R.1)) ∧
    ((a1 + a2) % P256.N ≠ 0 →
      ∃ (fs1 fs2 : FS) (secret : List Nat),
        generate [pub, chuck, alice] reader1 WriteEnv.ok WriteEnv.ok WriteEnv.ok fs =
          ⟨fs1, ["Key generation complete."], Exit.ok⟩ ∧
        send [pub, eph] reader2 WriteEnv.ok fs1 =
          ⟨fs2, ["Sender Shared Secret (x-coord): " ++ fmt.text secret], Exit.ok⟩ ∧
        recoverSecret [eph, chuck, alice, outf] WriteEnv.ok fs2 =
          ⟨(outf, FileData.raw secret) :: fs2,
            ["Verification successful: Recovered secret matches direct computation.",
             "Recovered Shared Secret (x-coord): " ++ fmt.text secret], Exit.ok⟩) ∧
    ((a1 + a2) % P256.N = 0 →
      generate [pub, chuck, alice] reader1 WriteEnv.ok WriteEnv.ok WriteEnv.ok fs =
        ⟨fs, ["Error saving public key: x509: invalid elliptic curve public key"],
          Exit.exit1⟩) := by
  obtain ⟨G, hG, hG0⟩ := exists_G
  -- the public key
  have hslt : (a1 + a2) % P256.N < P256.N := Nat.mod_lt _ N_pos
  have hPK := rep_scalarBaseMult_bytes hG ((a1 + a2) % P256.N)
  -- the ephemeral key
  obtain ⟨priv, hpriv, hbe, hxy⟩ := generateKey_spec elliptic.P256 reader2 hg
  rw [P256_params_N] at hpriv
  rw [P256_scalarBaseMult] at hxy
  have hp256 : priv < 2 ^ 256 := lt_trans hpriv N_lt
  have hsb : big.SetBytes b = priv := by rw [hbe, setBytes_fillBytes32]
  have hpriv0 : priv ≠ 0 := by
    intro h0
    apply hb
    rw [hsb, h0]
  have hE := rep_scalarBaseMult_fill hG hp256
  rw [← hxy] at hE
  -- the point of the sender
  have hS := rep_scalarMul_fill hPK hp256
  rw [← hbe] at hS
  have hSeq := scalarMult_eq hPK b
  -- the points of the recoverer
  have hR1 := rep_scalarMul_normalize hE a1
  have hR2 := rep_scalarMul_normalize hE a2
  have hC := rep_scalarMul_normalize hE ((a1 + a2) % P256.N)
  have hR := rep_add hR1 hR2
  rw [nsmul_sum] at hR
  have hRC := rep_coords_unique hR hC
  have hSC : P256.scalarMul (P256.ScalarBaseMult (big.Bytes ((a1 + a2) % P256.N))).1
      (P256.ScalarBaseMult (big.Bytes ((a1 + a2) % P256.N))).2 (P256.normalizeScalar b) =
      P256.scalarMul x y (P256.normalizeScalar (big.Bytes ((a1 + a2) % P256.N))) := by
    apply rep_coords_unique hS
    have e : priv • ((a1 + a2) % P256.N) • G = ((a1 + a2) % P256.N) • priv • G := by
      rw [← mul_nsmul, ← mul_nsmul, mul_comm]
    rw [e]
    exact hC
  refine ⟨⟨randInt_lt N_pos hd1, randInt_lt N_pos hd2, ?_, ?_⟩, ?_, ?_, ?_⟩
  · rw [hsb]; exact Nat.one_le_iff_ne_zero.2 hpriv0
  · rw [hsb]; exact hpriv
  · refine ⟨_, _, _, _, hSeq, scalarMult_eq hE _, scalarMult_eq hE _, add_eq hR1 hR2, ?_, ?_⟩
    · rw [hSC, hRC]
    · rw [hSC, hRC]
      exact sbx_eq_encode _ (bytes_lt _)
  · intro hsum
    have hPKon := isOnCurve_of_rep_ne_zero hPK (nsmul_ne_zero_of_lt hG0 hsum hslt)
    have hEon := isOnCurve_of_rep_ne_zero hE (nsmul_ne_zero_of_lt hG0 hpriv0 hpriv)
    refine ⟨(alice, FileData.raw (hex.EncodeToString (big.Bytes a1))) ::
        (chuck, FileData.raw (hex.EncodeToString (big.Bytes a2))) ::
        (pub, FileData.pem ⟨"PUBLIC KEY", Der.ecPoint P256.params
          (P256.ScalarBaseMult (big.Bytes ((a1 + a2) % P256.N))).1
          (P256.ScalarBaseMult (big.Bytes ((a1 + a2) % P256.N))).2⟩) :: fs,
      (eph, FileData.pem ⟨"PUBLIC KEY", Der.ecPoint P256.params x y⟩) ::
        (alice, FileData.raw (hex.EncodeToString (big.Bytes a1))) ::
        (chuck, FileData.raw (hex.EncodeToString (big.Bytes a2))) ::
        (pub, FileData.pem ⟨"PUBLIC KEY", Der.ecPoint P256.params
          (P256.ScalarBaseMult (big.Bytes ((a1 + a2) % P256.N))).1
          (P256.ScalarBaseMult (big.Bytes ((a1 + a2) % P256.N))).2⟩) :: fs,
      hex.EncodeToString (big.Bytes (P256.scalarMul x y
        (P256.normalizeScalar (big.Bytes ((a1 + a2) % P256.N)))).1), ?_, ?_, ?_⟩
    · unfold generate
      have h := generateOn_success elliptic.P256 reader1 r1 r2 a1 a2 pub chuck alice fs
        (by rw [P256_params_N]; exact hd1) (by rw [P256_params_N]; exact hd2)
        (by rw [P256_params_N, P256_scalarBaseMult, P256_params]; exact hPKon)
      rw [P256_params_N, P256_scalarBaseMult, P256_params] at h
      exact h
    · unfold send
      have hk : loadPublicKey
          ((alice, FileData.raw (hex.EncodeToString (big.Bytes a1))) ::
            (chuck, FileData.raw (hex.EncodeToString (big.Bytes a2))) ::
            (pub, FileData.pem ⟨"PUBLIC KEY", Der.ecPoint P256.params
              (P256.ScalarBaseMult (big.Bytes ((a1 + a2) % P256.N))).1
              (P256.ScalarBaseMult (big.Bytes ((a1 + a2) % P256.N))).2⟩) :: fs) pub =
          Loaded.key ⟨P256.params, (P256.ScalarBaseMult (big.Bytes ((a1 + a2) % P256.N))).1,
            (P256.ScalarBaseMult (big.Bytes ((a1 + a2) % P256.N))).2⟩ := by
        rw [loadPublicKey_skip _ _ _ _ hpa, loadPublicKey_skip _ _ _ _ hpc,
          loadPublicKey_written _ _ _ _ _ _ hPKon]
      have h := sendOn_success elliptic.P256 _ pub eph reader2 r3 _ b x y _ hk hg
        (by rw [P256_scalarMult]; exact hSeq) (by rw [P256_params]; exact hEon)
      rw [h, hSC, sbx_eq_encode _ (bytes_lt _), P256_params]
    · unfold recoverSecret
      have hk : loadPublicKey
          ((eph, FileData.pem ⟨"PUBLIC KEY", Der.ecPoint P256.params x y⟩) ::
            (alice, FileData.raw (hex.EncodeToString (big.Bytes a1))) ::
            (chuck, FileData.raw (hex.EncodeToString (big.Bytes a2))) ::
            (pub, FileData.pem ⟨"PUBLIC KEY", Der.ecPoint P256.params
              (P256.ScalarBaseMult (big.Bytes ((a1 + a2) % P256.N))).1
              (P256.ScalarBaseMult (big.Bytes ((a1 + a2) % P256.N))).2⟩) :: fs) eph =
          Loaded.key ⟨P256.params, x, y⟩ := loadPublicKey_written _ _ _ _ _ _ hEon
      have h := recoverSecretOn_success elliptic.P256 _ eph chuck alice outf _ a1 a2 _ _ _ hk
        (by rw [loadScalar_skip _ _ _ _ hec.symm, loadScalar_skip _ _ _ _ hca,
          loadScalar_written])
        (by rw [loadScalar_skip _ _ _ _ hea.symm, loadScalar_written])
        (by rw [P256_scalarMult]; exact scalarMult_eq hE _)
        (by rw [P256_scalarMult]; exact scalarMult_eq hE _)
        (by
          show elliptic.P256.Add _ _ _ _ = some (P256.scalarMul x y
            (P256.normalizeScalar (big.Bytes ((a1 + a2) % P256.N))))
          rw [P256_add, add_eq hR1 hR2, hRC])
        (by rw [P256_scalarMult, P256_params_N]; exact scalarMult_eq hE _)
      rw [h, sbx_eq_encode _ (bytes_lt _)]
  · intro hsum
    have hz : P256.ScalarBaseMult (big.Bytes ((a1 + a2) % P256.N)) = (0, 0) := by
      rw [hsum] at hPK ⊢
      rw [zero_nsmul] at hPK
      exact (rep_zero_iff hPK).1 rfl
    unfold generate
    apply generateOn_invalid elliptic.P256 reader1 r1 r2 a1 a2
    · rw [P256_params_N]; exact hd1
    · rw [P256_params_N]; exact hd2
    · rw [P256_params_N, P256_scalarBaseMult, P256_params, hz]
      exact isOnCurve_zero_false

/-- Witness of C1: `generate` draws the shares `1` and `2`, `send` reads the random block
`00 42 00 ... 03`, which makes the ephemeral scalar `3`. -/
theorem session_consistency_witness :
    ∃ (fs1 fs2 : FS) (secret : List Nat),
      generate ["pub.pem", "chuck.share", "alice.share"] [1, 2] WriteEnv.ok WriteEnv.ok
          WriteEnv.ok [] = ⟨fs1, ["Key generation complete."], Exit.ok⟩ ∧
      send ["pub.pem", "eph.pem"] [0x42 * 2 ^ 240 + 3] WriteEnv.ok fs1 =
        ⟨fs2, ["Sender Shared Secret (x-coord): " ++ fmt.text secret], Exit.ok⟩ ∧
      recoverSecret ["eph.pem", "chuck.share", "alice.share", "secret.hex"] WriteEnv.ok fs2 =
        ⟨("secret.hex", FileData.raw secret) :: fs2,
          ["Verification successful: Recovered secret matches direct computation.",
           "Recovered Shared Secret (x-coord): " ++ fmt.text secret], Exit.ok⟩ :=
  (session_consistency [] "pub.pem" "chuck.share" "alice.share" "eph.pem" "secret.hex"
    [1, 2] [2] [] [0x42 * 2 ^ 240 + 3] [] 1 2 (big.FillBytes32 3)
    (P256.ScalarBaseMult (big.FillBytes32 3)).1 (P256.ScalarBaseMult (big.FillBytes32 3)).2
    (by decide!) (by decide!) (by decide!) (by decide!)
    (by decide) (by decide) (by decide) (by decide) (by decide)).2.2.1 (by decide!)

/-- C2 (homomorphic recovery). For every point `E` on the curve (so not the identity) and
shares `a1`, `a2` in `[0, N)`, the point `Add(a1·E, a2·E)` of `recoverSecret` and its check
point `((a1 + a2) mod N)·E` are computed and agree in both coordinates, so that
`recoverSecret` on such a key and shares passes the comparison, writes the secret and ends
successfully. -/
theorem homomorphic_recovery (Ex Ey a1 a2 : Nat) (hE : P256.IsOnCurve Ex Ey = true)
    (h1 : a1 < P256.N) (h2 : a2 < P256.N) :
    ∃ R1 R2 S C : Nat × Nat,
      P256.ScalarMult Ex Ey (big.Bytes a1) = some R1 ∧
      P256.ScalarMult Ex Ey (big.Bytes a2) = some R2 ∧
      P256.Add R1.1 R1.2 R2.1 R2.2 = some S ∧
      P256.ScalarMult Ex Ey (big.Bytes ((a1 + a2) % P256.N)) = some C ∧
      S.1 = C.1 ∧ S.2 = C.2 ∧
      ∀ (fs : FS) (eph chuck alice outf : String) (c : elliptic.CurveParams),
        loadPublicKey fs eph = Loaded.key ⟨c, Ex, Ey⟩ →
        loadScalar fs chuck = .ok a2 → loadScalar fs alice = .ok a1 →
        recoverSecret [eph, chuck, alice, outf] WriteEnv.ok fs =
          ⟨(outf, FileData.raw (hex.EncodeToString (big.Bytes S.1))) :: fs,
           ["Verification successful: Recovered secret matches direct computation.",
            "Recovered Shared Secret (x-coord): " ++ fmt.text (fmt.sbx (big.Bytes S.1))],
           Exit.ok⟩ := by
  obtain ⟨R1, R2, S, e1, e2, e3, e4⟩ :=
    recover_points_agree (valid_of_isOnCurve hE) a1 a2
  refine ⟨R1, R2, S, S, e1, e2, e3, e4, rfl, rfl, ?_⟩
  intro fs eph chuck alice outf c hk hs2 hs1
  have e4' : P256.ScalarMult Ex Ey (big.Bytes ((a1 + a2) % P256.params.N)) = some S := e4
  simp only [recoverSecret, recoverSecretOn, hk, hs2, hs1, elliptic.P256, e1, e2, e3, e4',
    os.WriteFile, os.Create, os.File.Write, ne_eq, not_true_eq_false, or_self, if_false,
    if_true]

/-- Witness of C2: the base point as ephemeral key and the shares `1` and `2`. -/
theorem homomorphic_recovery_witness :
    P256.IsOnCurve P256.Gx P256.Gy = true ∧ 1 < P256.N ∧ 2 < P256.N ∧
    ∃ R1 R2 S C : Nat × Nat,
      P256.ScalarMult P256.Gx P256.Gy (big.Bytes 1) = some R1 ∧
      P256.ScalarMult P256.Gx P256.Gy (big.Bytes 2) = some R2 ∧
      P256.Add R1.1 R1.2 R2.1 R2.2 = some S ∧
      P256.ScalarMult P256.Gx P256.Gy (big.Bytes ((1 + 2) % P256.N)) = some C ∧
      S.1 = C.1 ∧ S.2 = C.2 :=
  ⟨by decide, by decide, by decide,
    (homomorphic_recovery P256.Gx P256.Gy 1 2 (by decide) (by decide) (by decide)).imp
      fun _ h => h.imp fun _ h => h.imp fun _ h => h.imp fun _ h =>
        ⟨h.1, h.2.1, h.2.2.1, h.2.2.2.1, h.2.2.2.2.1, h.2.2.2.2.2.1⟩⟩

/-- C3 (split-sum invariant). For every pair of values `a1`, `a2` that `generate` draws from
the random source: both lie in `[0, N)`; the key `generate` builds is the multiple
`((a1 + a2) mod N)·G` of the base point; and when the run succeeds the files written are the
public key file holding that point, Chuck's share file holding `a2` and Alice's share file
holding `a1`, each share file read back by `loadScalar` as the share. -/
theorem split_sum_invariant (reader r1 r2 : List Nat) (a1 a2 : Nat)
    (pubKeyFile chuckShareFile aliceShareFile : String) (w1 w2 w3 : WriteEnv) (fs : FS)
    (hd1 : rand.Int reader P256.N = some (a1, r1))
    (hd2 : rand.Int r1 P256.N = some (a2, r2)) :
    a1 < P256.N ∧ a2 < P256.N ∧
    (∀ G : P256.W.Point, Rep (P256.Gx, P256.Gy) G →
      Rep (P256.ScalarBaseMult (big.Bytes ((a1 + a2) % P256.N))) (((a1 + a2) % P256.N) • G)) ∧
    ((generate [pubKeyFile, chuckShareFile, aliceShareFile] reader w1 w2 w3 fs).exit = Exit.ok →
      (generate [pubKeyFile, chuckShareFile, aliceShareFile] reader w1 w2 w3 fs).fs =
        (aliceShareFile, FileData.raw (hex.EncodeToString (big.Bytes a1))) ::
        (chuckShareFile, FileData.raw (hex.EncodeToString (big.Bytes a2))) ::
        (pubKeyFile, FileData.pem ⟨"PUBLIC KEY", Der.ecPoint P256.params
          (P256.ScalarBaseMult (big.Bytes ((a1 + a2) % P256.N))).1
          (P256.ScalarBaseMult (big.Bytes ((a1 + a2) % P256.N))).2⟩) :: fs) ∧
    (∀ fs1 : FS, loadScalar
      ((aliceShareFile, FileData.raw (hex.EncodeToString (big.Bytes a1))) :: fs1)
        aliceShareFile = .ok a1) ∧
    (∀ fs1 : FS, loadScalar
      ((chuckShareFile, FileData.raw (hex.EncodeToString (big.Bytes a2))) :: fs1)
        chuckShareFile = .ok a2) := by
  refine ⟨randInt_lt N_pos hd1, randInt_lt N_pos hd2,
    fun G hG => rep_scalarBaseMult_bytes hG _, ?_,
    fun fs1 => loadScalar_written a1 fs1 _, fun fs1 => loadScalar_written a2 fs1 _⟩
  intro h
  exact generateOn_ok elliptic.P256 reader r1 r2 a1 a2 pubKeyFile chuckShareFile aliceShareFile
    w1 w2 w3 fs hd1 hd2 h

/-- Witness of C3: the draws `5` and `7`. -/
theorem split_sum_invariant_witness :
    rand.Int [5, 7] P256.N = some (5, [7]) ∧ rand.Int [7] P256.N = some (7, []) ∧
      5 < P256.N ∧ 7 < P256.N :=
  ⟨by decide!, by decide!,
    (split_sum_invariant [5, 7] [7] [] 5 7 "pub.pem" "chuck.share" "alice.share" WriteEnv.ok
      WriteEnv.ok WriteEnv.ok [] (by decide!) (by decide!)).1,
    (split_sum_invariant [5, 7] [7] [] 5 7 "pub.pem" "chuck.share" "alice.share" WriteEnv.ok
      WriteEnv.ok WriteEnv.ok [] (by decide!) (by decide!)).2.1⟩

/-- C4 (a recovery mismatch writes nothing). For every curve implementation, every key and
shares loaded and every result of the curve calls: if the recovered point `Add(a1·E, a2·E)`
differs from the check point in its x or its y coordinate, `recoverSecretOn` ends with
`os.Exit(1)` after the mismatch message, the file system unchanged; and if the run changed
the file system, both coordinates agreed. `recoverSecret` is the instance `elliptic.P256`. -/
theorem recovery_mismatch_writes_nothing (curve : elliptic.Curve) (fs : FS)
    (eph chuck alice outf : String) (w1 : WriteEnv) (E : ecdsa.PublicKey) (a1 a2 : Nat)
    (R1 R2 S C : Nat × Nat)
    (hk : loadPublicKey fs eph = Loaded.key E)
    (hs2 : loadScalar fs chuck = .ok a2) (hs1 : loadScalar fs alice = .ok a1)
    (e1 : curve.ScalarMult E.X E.Y (big.Bytes a1) = some R1)
    (e2 : curve.ScalarMult E.X E.Y (big.Bytes a2) = some R2)
    (e3 : curve.Add R1.1 R1.2 R2.1 R2.2 = some S)
    (e4 : curve.ScalarMult E.X E.Y (big.Bytes ((a1 + a2) % curve.Params.N)) = some C) :
    (S.1 ≠ C.1 ∨ S.2 ≠ C.2 →
      recoverSecretOn curve [eph, chuck, alice, outf] w1 fs =
        ⟨fs, ["Error: Recovered secret does not match direct computation!"], Exit.exit1⟩) ∧
    ((recoverSecretOn curve [eph, chuck, alice, outf] w1 fs).fs ≠ fs →
      S.1 = C.1 ∧ S.2 = C.2) := by
  constructor
  · intro hne
    simp only [recoverSecretOn, hk, hs2, hs1, e1, e2, e3, e4, if_pos hne]
  · intro hfs
    by_contra hc
    apply hfs
    have hne : S.1 ≠ C.1 ∨ S.2 ≠ C.2 := by tauto
    simp only [recoverSecretOn, hk, hs2, hs1, e1, e2, e3, e4, if_pos hne]

/-- Witness of C4: the faulty curve on a valid key and two shares. -/
theorem recovery_mismatch_writes_nothing_witness :
    recoverSecretOn faultyCurve ["eph.pem", "chuck.share", "alice.share", "secret.hex"] WriteEnv.ok
        [("eph.pem", FileData.pem ⟨"PUBLIC KEY", Der.ecPoint P256.params P256.Gx P256.Gy⟩),
         ("chuck.share", FileData.raw [48, 50]), ("alice.share", FileData.raw [48, 49])] =
      ⟨[("eph.pem", FileData.pem ⟨"PUBLIC KEY", Der.ecPoint P256.params P256.Gx P256.Gy⟩),
         ("chuck.share", FileData.raw [48, 50]), ("alice.share", FileData.raw [48, 49])],
        ["Error: Recovered secret does not match direct computation!"], Exit.exit1⟩ :=
  (recovery_mismatch_writes_nothing faultyCurve
    [("eph.pem", FileData.pem ⟨"PUBLIC KEY", Der.ecPoint P256.params P256.Gx P256.Gy⟩),
     ("chuck.share", FileData.raw [48, 50]), ("alice.share", FileData.raw [48, 49])]
    "eph.pem" "chuck.share" "alice.share" "secret.hex" WriteEnv.ok ⟨P256.params, P256.Gx, P256.Gy⟩
    1 2 (3, 4) (3, 4) (1, 2) (3, 4) (by decide) (by decide) (by decide) rfl rfl rfl rfl).1
    (Or.inl (by decide))

/-- C5 (scalar serialization round trip). For every scalar `s`, `saveScalar` writes the
lowercase hex text of the big-endian minimal-length bytes of `s` (no text at all for `0`),
and `loadScalar` on the file written succeeds with exactly `s`. -/
theorem scalar_round_trip (s : Nat) (fs : FS) (filename : String) :
    saveScalar WriteEnv.ok fs filename s =
      ((filename, FileData.raw (hex.EncodeToString (big.Bytes s))) :: fs, none) ∧
    loadScalar ((filename, FileData.raw (hex.EncodeToString (big.Bytes s))) :: fs) filename =
      .ok s ∧
    (∀ c ∈ hex.EncodeToString (big.Bytes s), c ∈ hex.hextable) ∧
    (∀ k, (big.Bytes s).length ≤ k ↔ s < 256 ^ k) ∧
    hex.EncodeToString (big.Bytes 0) = [] :=
  ⟨rfl, loadScalar_written s fs filename, encode_mem_hextable _ (bytes_lt s),
    bytes_length_le s, by decide⟩

/-- C6, counterexample. `generate` whose second file cannot be opened ends with `os.Exit(1)`
and has written the public key file, while both share files are missing; and `send` whose
write breaks off after the file was opened ends with `os.Exit(1)` and leaves the ephemeral
key file behind, empty. -/
theorem all_or_nothing_counterexample :
    (generate ["pub.pem", "chuck.share", "alice.share"] [1, 2] WriteEnv.ok WriteEnv.openFails
      WriteEnv.ok []).exit = Exit.exit1 ∧
    ((generate ["pub.pem", "chuck.share", "alice.share"] [1, 2] WriteEnv.ok WriteEnv.openFails
      WriteEnv.ok []).fs.lookup "pub.pem").isSome = true ∧
    (generate ["pub.pem", "chuck.share", "alice.share"] [1, 2] WriteEnv.ok WriteEnv.openFails
      WriteEnv.ok []).fs.lookup "chuck.share" = none ∧
    (generate ["pub.pem", "chuck.share", "alice.share"] [1, 2] WriteEnv.ok WriteEnv.openFails
      WriteEnv.ok []).fs.lookup "alice.share" = none ∧
    (send ["pub.pem", "eph.pem"] [0x42 * 2 ^ 240 + 1] (WriteEnv.writeFails (FileData.raw []))
      [("pub.pem", FileData.pem ⟨"PUBLIC KEY", Der.ecPoint P256.params P256.Gx P256.Gy⟩)]).exit =
      Exit.exit1 ∧
    (send ["pub.pem", "eph.pem"] [0x42 * 2 ^ 240 + 1] (WriteEnv.writeFails (FileData.raw []))
      [("pub.pem", FileData.pem ⟨"PUBLIC KEY", Der.ecPoint P256.params P256.Gx
        P256.Gy⟩)]).fs.lookup "eph.pem" = some (FileData.raw []) := by
  decide!

/-- C6, amended. No run undoes a write, and a write that breaks off after its file was
opened leaves that file behind with what had reached it. `send` and `recoverSecret` have one
output file each: a run ends successfully only with its write carried out and the file
written; a run that does not end successfully leaves the file system as it was, unless its
write broke off after the file was opened, and then it leaves that file and nothing else.
`generate` writes the public key file, Chuck's share file and Alice's share file in this
order: a run ends successfully only with the three writes carried out and the three files
written; a run that does not end successfully leaves the files whose writes came before the
failing step, and with them the file of the failing write when that write broke off after the
file was opened. -/
theorem outputs_follow_write_order (args : List String) (pub chuck alice : String)
    (reader : List Nat) (w1 w2 w3 : WriteEnv) (fs : FS) :
    (((send args reader w1 fs).exit = Exit.ok ∧ w1 = WriteEnv.ok ∧
        ∃ name d, (send args reader w1 fs).fs = (name, d) :: fs) ∨
      ((send args reader w1 fs).exit ≠ Exit.ok ∧
        ((send args reader w1 fs).fs = fs ∨
         ∃ name left, w1 = WriteEnv.writeFails left ∧
           (send args reader w1 fs).fs = (name, left) :: fs))) ∧
    (((recoverSecret args w1 fs).exit = Exit.ok ∧ w1 = WriteEnv.ok ∧
        ∃ name d, (recoverSecret args w1 fs).fs = (name, d) :: fs) ∨
      ((recoverSecret args w1 fs).exit ≠ Exit.ok ∧
        ((recoverSecret args w1 fs).fs = fs ∨
         ∃ name left, w1 = WriteEnv.writeFails left ∧
           (recoverSecret args w1 fs).fs = (name, left) :: fs))) ∧
    (((generate [pub, chuck, alice] reader w1 w2 w3 fs).exit = Exit.ok ∧
        w1 = WriteEnv.ok ∧ w2 = WriteEnv.ok ∧ w3 = WriteEnv.ok ∧
        ∃ d1 d2 d3, (generate [pub, chuck, alice] reader w1 w2 w3 fs).fs =
          (alice, d3) :: (chuck, d2) :: (pub, d1) :: fs) ∨
      ((generate [pub, chuck, alice] reader w1 w2 w3 fs).exit ≠ Exit.ok ∧
        ((generate [pub, chuck, alice] reader w1 w2 w3 fs).fs = fs ∨
         (∃ left, w1 = WriteEnv.writeFails left ∧
            (generate [pub, chuck, alice] reader w1 w2 w3 fs).fs = (pub, left) :: fs) ∨
         (w2 = WriteEnv.openFails ∧ ∃ d1,
            (generate [pub, chuck, alice] reader w1 w2 w3 fs).fs = (pub, d1) :: fs) ∨
         (∃ left d1, w2 = WriteEnv.writeFails left ∧
            (generate [pub, chuck, alice] reader w1 w2 w3 fs).fs =
              (chuck, left) :: (pub, d1) :: fs) ∨
         (w3 = WriteEnv.openFails ∧ ∃ d1 d2,
            (generate [pub, chuck, alice] reader w1 w2 w3 fs).fs =
              (chuck, d2) :: (pub, d1) :: fs) ∨
         (∃ left d1 d2, w3 = WriteEnv.writeFails left ∧
            (generate [pub, chuck, alice] reader w1 w2 w3 fs).fs =
              (alice, left) :: (chuck, d2) :: (pub, d1) :: fs)))) :=
  ⟨sendOn_write_cases elliptic.P256 args reader w1 fs,
    recoverSecretOn_write_cases elliptic.P256 args w1 fs,
    generateOn_write_order elliptic.P256 pub chuck alice reader w1 w2 w3 fs⟩

/-- C7, counterexample. A share file of 64 digits `f` is accepted by `loadScalar`, and the
value returned, `2 ^ 256 - 1`, is not below `N`. -/
theorem scalars_reduced_counterexample :
    loadScalar [("chuck.share", FileData.raw (List.replicate 64 102))] "chuck.share" =
      .ok (2 ^ 256 - 1) ∧
    ¬ (2 ^ 256 - 1 < P256.N) := by
  decide!

/-- C7, amended. The scalars the program draws and the sums it forms lie in `[0, N)`: in
every run of `generate` that ends successfully the share files hold two values `a1`, `a2`
of `[0, N)` and the key is the multiple of the base point by `(a1 + a2) mod N`, a value of
`[0, N)`; in every run of `send` that ends successfully the scalar given to the curve is the
32-byte form of a value of `[0, N)`. The scalars the program loads are not reduced:
`loadScalar` returns the integer of the hex digits of the file with no reduction and no range
check, every natural number being the value it returns for some file, and `recoverSecret`
gives the bytes of the loaded `a1` and `a2`, as they are, to scalar multiplication, and the
bytes of `(a1 + a2) mod N` to the check multiplication; the run is determined by the answers
of the curve to these three calls and to `Add`. -/
theorem scalars_reduced_where_drawn :
    (∀ (pub chuck alice : String) (reader : List Nat) (w1 w2 w3 : WriteEnv) (fs : FS),
      (generate [pub, chuck, alice] reader w1 w2 w3 fs).exit = Exit.ok →
      ∃ a1 a2 : Nat, a1 < P256.N ∧ a2 < P256.N ∧ (a1 + a2) % P256.N < P256.N ∧
        (generate [pub, chuck, alice] reader w1 w2 w3 fs).fs =
          (alice, FileData.raw (hex.EncodeToString (big.Bytes a1))) ::
          (chuck, FileData.raw (hex.EncodeToString (big.Bytes a2))) ::
          (pub, FileData.pem ⟨"PUBLIC KEY", Der.ecPoint P256.params
            (P256.ScalarBaseMult (big.Bytes ((a1 + a2) % P256.N))).1
            (P256.ScalarBaseMult (big.Bytes ((a1 + a2) % P256.N))).2⟩) :: fs) ∧
    (∀ (inp outp : String) (reader : List Nat) (w1 : WriteEnv) (fs : FS),
      (send [inp, outp] reader w1 fs).exit = Exit.ok →
      ∃ (dest : ecdsa.PublicKey) (b : Nat) (S : Nat × Nat),
        loadPublicKey fs inp = Loaded.key dest ∧ b < P256.N ∧
        P256.ScalarMult dest.X dest.Y (big.FillBytes32 b) = some S ∧
        (send [inp, outp] reader w1 fs).out =
          ["Sender Shared Secret (x-coord): " ++ fmt.text (fmt.sbx (big.Bytes S.1))]) ∧
    (∀ (v : Nat) (fs : FS) (filename : String),
      loadScalar ((filename, FileData.raw (hex.EncodeToString (big.Bytes v))) :: fs) filename =
        .ok v) ∧
    (∀ (curve : elliptic.Curve) (fs : FS) (eph chuck alice outf : String)
      (E : ecdsa.PublicKey) (a1 a2 : Nat) (R1 R2 S C : Nat × Nat),
      loadPublicKey fs eph = Loaded.key E →
      loadScalar fs chuck = .ok a2 → loadScalar fs alice = .ok a1 →
      curve.ScalarMult E.X E.Y (big.Bytes a1) = some R1 →
      curve.ScalarMult E.X E.Y (big.Bytes a2) = some R2 →
      curve.Add R1.1 R1.2 R2.1 R2.2 = some S →
      curve.ScalarMult E.X E.Y (big.Bytes ((a1 + a2) % curve.Params.N)) = some C →
      recoverSecretOn curve [eph, chuck, alice, outf] WriteEnv.ok fs =
        if S.1 ≠ C.1 ∨ S.2 ≠ C.2 then
          ⟨fs, ["Error: Recovered secret does not match direct computation!"], Exit.exit1⟩
        else
          ⟨(outf, FileData.raw (hex.EncodeToString (big.Bytes S.1))) :: fs,
            ["Verification successful: Recovered secret matches direct computation.",
             "Recovered Shared Secret (x-coord): " ++ fmt.text (fmt.sbx (big.Bytes S.1))],
            Exit.ok⟩) := by
  refine ⟨?_, ?_, fun v fs filename => loadScalar_written v fs filename, ?_⟩
  · intro pub chuck alice reader w1 w2 w3 fs h
    unfold generate at h ⊢
    obtain ⟨a1, a2, r1, r2, hd1, hd2⟩ :=
      generateOn_ok_draws elliptic.P256 pub chuck alice reader w1 w2 w3 fs h
    have hfs := generateOn_ok elliptic.P256 reader r1 r2 a1 a2 pub chuck alice w1 w2 w3 fs
      hd1 hd2 h
    rw [P256_params_N] at hd1 hd2
    rw [P256_params_N, P256_scalarBaseMult, P256_params] at hfs
    exact ⟨a1, a2, randInt_lt N_pos hd1, randInt_lt N_pos hd2, Nat.mod_lt _ N_pos, hfs⟩
  · intro inp outp reader w1 fs h
    unfold send at h ⊢
    obtain ⟨dest, b, S, hk, hb, hS, hout⟩ :=
      sendOn_ok_scalar elliptic.P256 inp outp reader w1 fs h
    rw [P256_params_N] at hb
    rw [P256_scalarMult] at hS
    exact ⟨dest, b, S, hk, hb, hS, hout⟩
  · intro curve fs eph chuck alice outf E a1 a2 R1 R2 S C hk hs2 hs1 e1 e2 e3 e4
    exact recoverSecretOn_run curve fs eph chuck alice outf E a1 a2 R1 R2 S C hk hs2 hs1
      e1 e2 e3 e4

/-- Witness of C7, amended: on the curve value that hands its scalars back, a share file of
64 digits `f` and a share file `01` give the recovered x-coordinate `2 ^ 256`, the sum of the
two shares as loaded, while the check has the sum reduced modulo `N`; the run ends in the
mismatch. -/
theorem scalars_reduced_where_drawn_witness :
    recoverSecretOn echoCurve ["eph.pem", "chuck.share", "alice.share", "secret.hex"]
        WriteEnv.ok
        [("eph.pem", FileData.pem ⟨"PUBLIC KEY", Der.ecPoint P256.params P256.Gx P256.Gy⟩),
         ("chuck.share", FileData.raw [48, 49]),
         ("alice.share", FileData.raw (List.replicate 64 102))] =
      ⟨[("eph.pem", FileData.pem ⟨"PUBLIC KEY", Der.ecPoint P256.params P256.Gx P256.Gy⟩),
        ("chuck.share", FileData.raw [48, 49]),
        ("alice.share", FileData.raw (List.replicate 64 102))],
        ["Error: Recovered secret does not match direct computation!"], Exit.exit1⟩ :=
  (scalars_reduced_where_drawn.2.2.2 echoCurve
    [("eph.pem", FileData.pem ⟨"PUBLIC KEY", Der.ecPoint P256.params P256.Gx P256.Gy⟩),
     ("chuck.share", FileData.raw [48, 49]),
     ("alice.share", FileData.raw (List.replicate 64 102))]
    "eph.pem" "chuck.share" "alice.share" "secret.hex" ⟨P256.params, P256.Gx, P256.Gy⟩
    (2 ^ 256 - 1) 1 (2 ^ 256 - 1, 0) (1, 0) (2 ^ 256, 0) (2 ^ 256 % P256.N, 0)
    (by decide!) (by decide!) (by decide!) (by decide!) (by decide!) (by decide!)
    (by decide!)).trans (if_pos (Or.inl (by decide!)))

/-- C8, counterexample. For the shares `a1 = a2 = 0` the key `generate` builds is `(0, 0)`,
the identity, which is not on the curve; the run on these draws ends with `os.Exit(1)`. -/
theorem public_key_valid_counterexample :
    P256.ScalarBaseMult (big.Bytes ((0 + 0) % P256.N)) = (0, 0) ∧
    P256.IsOnCurve 0 0 = false ∧
    generate ["pub.pem", "chuck.share", "alice.share"] [0, 0] WriteEnv.ok WriteEnv.ok
        WriteEnv.ok [] =
      ⟨[], ["Error saving public key: x509: invalid elliptic curve public key"],
        Exit.exit1⟩ := by
  decide!

/-- C8, amended. For shares `a1`, `a2` in `[0, N)` with `(a1 + a2) mod N ≠ 0` the key
`((a1 + a2) mod N)·G` that `generate` builds lies on the curve and is not the identity. When
`(a1 + a2) mod N = 0` the key built is the identity `(0, 0)`; `savePublicKey` refuses it, and
`generate` ends with `os.Exit(1)` without writing a file. -/
theorem public_key_valid_unless_sum_zero (a1 a2 : Nat) (h1 : a1 < P256.N) (h2 : a2 < P256.N) :
    ((a1 + a2) % P256.N ≠ 0 →
      P256.IsOnCurve (P256.ScalarBaseMult (big.Bytes ((a1 + a2) % P256.N))).1
        (P256.ScalarBaseMult (big.Bytes ((a1 + a2) % P256.N))).2 = true ∧
      P256.ScalarBaseMult (big.Bytes ((a1 + a2) % P256.N)) ≠ (0, 0)) ∧
    ((a1 + a2) % P256.N = 0 →
      P256.ScalarBaseMult (big.Bytes ((a1 + a2) % P256.N)) = (0, 0) ∧
      ∀ (reader r1 r2 : List Nat) (pub chuck alice : String) (w1 w2 w3 : WriteEnv)
          (fs : FS),
        rand.Int reader P256.N = some (a1, r1) → rand.Int r1 P256.N = some (a2, r2) →
        generate [pub, chuck, alice] reader w1 w2 w3 fs =
          ⟨fs, ["Error saving public key: x509: invalid elliptic curve public key"],
            Exit.exit1⟩) := by
  obtain ⟨G, hG, hG0⟩ := exists_G
  have hrep := rep_scalarBaseMult_bytes hG ((a1 + a2) % P256.N)
  constructor
  · intro hs
    have hne : ((a1 + a2) % P256.N) • G ≠ 0 := by
      intro h0
      have hdvd := (nsmul_eq_zero_iff hG0 _).1 h0
      have hlt : (a1 + a2) % P256.N < P256.N := Nat.mod_lt _ N_pos
      exact hs (Nat.eq_zero_of_dvd_of_lt hdvd hlt)
    rcases rep_cases hrep with ⟨_, h0⟩ | ⟨hon, _⟩
    · exact absurd h0 hne
    · exact ⟨hon, fun h => hne ((rep_zero_iff hrep).2 h)⟩
  · intro hs
    have hz : P256.ScalarBaseMult (big.Bytes ((a1 + a2) % P256.N)) = (0, 0) := by
      rw [hs] at hrep ⊢
      rw [zero_nsmul] at hrep
      exact (rep_zero_iff hrep).1 rfl
    refine ⟨hz, ?_⟩
    intro reader r1 r2 pub chuck alice w1 w2 w3 fs hd1 hd2
    unfold generate
    apply generateOn_invalid elliptic.P256 reader r1 r2 a1 a2
    · rw [P256_params_N]; exact hd1
    · rw [P256_params_N]; exact hd2
    · rw [P256_params_N, P256_scalarBaseMult, P256_params, hz]
      exact isOnCurve_zero_false

/-- Witness of C8, amended: the shares `1` and `2`. -/
theorem public_key_valid_unless_sum_zero_witness :
    (1 + 2) % P256.N ≠ 0 ∧
      P256.IsOnCurve (P256.ScalarBaseMult (big.Bytes ((1 + 2) % P256.N))).1
        (P256.ScalarBaseMult (big.Bytes ((1 + 2) % P256.N))).2 = true :=
  ⟨by decide!,
    ((public_key_valid_unless_sum_zero 1 2 (by decide!) (by decide!)).1 (by decide!)).1⟩

/-- C9 (point-at-infinity rejection in send). For every recipient key that `loadPublicKey`
returns and every ephemeral key pair that `elliptic.GenerateKey` returns: if the shared
point `b·P` that `send` computes is the identity, returned by the curve as `(0, 0)`, then
`send` ends with `os.Exit(1)`, leaves the file system as it was (no ephemeral public key
file) and prints no shared secret. The test for `nil` never fires; the identity arises only
from the scalar `0`, whose ephemeral public key is the identity and is refused by
`savePublicKey`. -/
theorem send_identity_rejected (fs : FS) (inp outp : String) (reader r : List Nat)
    (w1 : WriteEnv) (dest : ecdsa.PublicKey) (b : List Nat) (x y : Nat)
    (hk : loadPublicKey fs inp = Loaded.key dest)
    (hg : elliptic.GenerateKey elliptic.P256 reader = some (b, x, y, r))
    (hS : P256.ScalarMult dest.X dest.Y b = some (0, 0)) :
    send [inp, outp] reader w1 fs =
      ⟨fs, ["Error saving ephemeral public key: x509: invalid elliptic curve public key"],
        Exit.exit1⟩ := by
  obtain ⟨priv, hpriv, hb, hxy⟩ := generateKey_spec elliptic.P256 reader hg
  rw [P256_params_N] at hpriv
  rw [P256_scalarBaseMult] at hxy
  have hp256 : priv < 2 ^ 256 := lt_trans hpriv N_lt
  have hvalid := valid_of_scalarMult hS
  obtain ⟨Q, hQ⟩ := @rep_of_valid dest.X dest.Y hvalid
  have hQ0 : Q ≠ 0 := by
    intro h0
    have := (rep_zero_iff hQ).1 h0
    simp only [Prod.mk.injEq] at this
    exact isOnCurve_not_zero (loadPublicKey_key hk) this
  have hS2 := scalarMult_eq hQ b
  rw [hS] at hS2
  have hrep := rep_scalarMul_fill hQ hp256
  rw [← hb] at hrep
  have h00 : P256.scalarMul dest.X dest.Y (P256.normalizeScalar b) = (0, 0) := by
    simpa using hS2.symm
  rw [h00] at hrep
  have hz : priv • Q = 0 := (rep_zero_iff hrep).2 rfl
  have hpriv0 : priv = 0 := Nat.eq_zero_of_dvd_of_lt ((nsmul_eq_zero_iff hQ0 _).1 hz) hpriv
  obtain ⟨G, hG, -⟩ := exists_G
  have hE := rep_scalarBaseMult_fill hG hp256
  rw [← hxy, hpriv0, zero_nsmul] at hE
  have hxy0 : (x, y) = (0, 0) := (rep_zero_iff hE).1 rfl
  simp only [Prod.mk.injEq] at hxy0
  unfold send
  apply sendOn_ephemeral_invalid elliptic.P256 fs inp outp reader r w1 dest b x y (0, 0) hk hg
  · rw [P256_scalarMult]; exact hS
  · rw [P256_params, hxy0.1, hxy0.2]
    exact isOnCurve_zero_false

/-- Witness of C9: the random block `00 42 00 ... 00`, from which `elliptic.GenerateKey`
makes the scalar `0`, against the base point as recipient key. -/
theorem send_identity_rejected_witness :
    send ["pub.pem", "eph.pem"] [0x42 * 2 ^ 240] WriteEnv.ok
        [("pub.pem", FileData.pem ⟨"PUBLIC KEY", Der.ecPoint P256.params P256.Gx P256.Gy⟩)] =
      ⟨[("pub.pem", FileData.pem ⟨"PUBLIC KEY", Der.ecPoint P256.params P256.Gx P256.Gy⟩)],
        ["Error saving ephemeral public key: x509: invalid elliptic curve public key"],
        Exit.exit1⟩ :=
  send_identity_rejected
    [("pub.pem", FileData.pem ⟨"PUBLIC KEY", Der.ecPoint P256.params P256.Gx P256.Gy⟩)]
    "pub.pem" "eph.pem" [0x42 * 2 ^ 240] [] WriteEnv.ok ⟨P256.params, P256.Gx, P256.Gy⟩
    (List.replicate 32 0) 0 0 (by decide!) (by decide!) (by decide!)

/-- C10, counterexample. A key file with the base point of P-384, a valid key on another
named curve whose coordinates are no point of P-256, is returned by `loadPublicKey` as a key,
with no error; and a key file with a key of another algorithm makes `loadPublicKey` panic. -/
theorem invalid_key_counterexample :
    loadPublicKey [("key.pem", FileData.pem ⟨"PUBLIC KEY", Der.ecPoint elliptic.p384Params
        elliptic.p384Params.Gx elliptic.p384Params.Gy⟩)] "key.pem" =
      Loaded.key ⟨elliptic.p384Params, elliptic.p384Params.Gx, elliptic.p384Params.Gy⟩ ∧
    P256.IsOnCurve elliptic.p384Params.Gx elliptic.p384Params.Gy = false ∧
    loadPublicKey [("key.pem", FileData.pem ⟨"PUBLIC KEY", Der.otherKey "RSA"⟩)] "key.pem" =
      Loaded.panic := by
  decide!

/-- C10, amended. For every key file whose elliptic curve point is not on the curve the key
names (a point off the curve, the identity), `loadPublicKey` returns an error. For every key
file that `loadPublicKey` does not turn into a point of the P-256 curve, `send` and
`recoverSecret` do not end successfully and leave the file system as it was. -/
theorem invalid_key_writes_nothing :
    (∀ (fs : FS) (filename blockType : String) (c : elliptic.CurveParams) (x y : Nat),
      fs.lookup filename = some (FileData.pem ⟨blockType, Der.ecPoint c x y⟩) →
      c.IsOnCurve x y = false →
      loadPublicKey fs filename =
        Loaded.error "x509: failed to unmarshal elliptic curve point") ∧
    (∀ (fs : FS) (inp outp : String) (reader : List Nat) (w1 : WriteEnv),
      (∀ k, loadPublicKey fs inp = Loaded.key k → P256.IsOnCurve k.X k.Y = false) →
      (send [inp, outp] reader w1 fs).fs = fs ∧
        (send [inp, outp] reader w1 fs).exit ≠ Exit.ok) ∧
    (∀ (fs : FS) (eph chuck alice outf : String) (w1 : WriteEnv),
      (∀ k, loadPublicKey fs eph = Loaded.key k → P256.IsOnCurve k.X k.Y = false) →
      (recoverSecret [eph, chuck, alice, outf] w1 fs).fs = fs ∧
        (recoverSecret [eph, chuck, alice, outf] w1 fs).exit ≠ Exit.ok) := by
  refine ⟨?_, ?_, ?_⟩
  · intro fs filename blockType c x y hl hc
    simp [loadPublicKey, os.ReadFile, hl, pem.Decode, x509.ParsePKIXPublicKey, hc]
  · intro fs inp outp reader w1 h
    unfold send
    apply sendOn_not_valid
    intro k hk b
    rw [P256_scalarMult]
    exact scalarMult_none (loaded_not_valid hk (h k hk)) b
  · intro fs eph chuck alice outf w1 h
    unfold recoverSecret
    apply recoverSecretOn_not_valid
    intro k hk b
    rw [P256_scalarMult]
    exact scalarMult_none (loaded_not_valid hk (h k hk)) b

/-- Witness of C10, amended: the identity in a P-256 key file, and a P-384 key given to
`send`. -/
theorem invalid_key_writes_nothing_witness :
    loadPublicKey [("key.pem", FileData.pem ⟨"PUBLIC KEY", Der.ecPoint P256.params 0 0⟩)]
        "key.pem" = Loaded.error "x509: failed to unmarshal elliptic curve point" ∧
    (send ["key.pem", "eph.pem"] [1] WriteEnv.ok
        [("key.pem", FileData.pem ⟨"PUBLIC KEY", Der.ecPoint elliptic.p384Params
          elliptic.p384Params.Gx elliptic.p384Params.Gy⟩)]).fs =
      [("key.pem", FileData.pem ⟨"PUBLIC KEY", Der.ecPoint elliptic.p384Params
          elliptic.p384Params.Gx elliptic.p384Params.Gy⟩)] :=
  ⟨invalid_key_writes_nothing.1
      [("key.pem", FileData.pem ⟨"PUBLIC KEY", Der.ecPoint P256.params 0 0⟩)]
      "key.pem" "PUBLIC KEY" P256.params 0 0 (by decide!) (by decide!),
    (invalid_key_writes_nothing.2.1
      [("key.pem", FileData.pem ⟨"PUBLIC KEY", Der.ecPoint elliptic.p384Params
          elliptic.p384Params.Gx elliptic.p384Params.Gy⟩)]
      "key.pem" "eph.pem" [1] WriteEnv.ok (by
        intro k hk
        have h : Loaded.key ⟨elliptic.p384Params, elliptic.p384Params.Gx,
            elliptic.p384Params.Gy⟩ = Loaded.key k := by
          rw [← hk]; decide!
        simp only [Loaded.key.injEq] at h
        subst h
        decide!)).1⟩

end MpDh
